import Mathlib

/-!
Verification of the fuel-tx transaction core: a shallow embedding of the
canonical codec, validation rules, fee arithmetic and balance accounting,
with theorems settling the specified properties.

Conventions of the embedding:
* Machine words (`u64`, called `Word` in the source) are `Nat` together with
  explicit `< 2 ^ 64` bounds; checked arithmetic returns `Option Nat`.
* Byte strings (`Vec<u8>`, `Bytes32`, addresses, hashes, salts) are `List Nat`
  whose entries are byte values; fixed widths are tracked by well-formedness
  predicates rather than by dependent types.
* Fallible operations return `Except` of the source's error enum, or `Option`
  where the source uses `Option`.
-/

deriving instance DecidableEq for Except

namespace FuelTx

/-- `u64::MAX + 1`, the modulus of the source's `Word` type. -/
def wordModulus : Nat := 2 ^ 64

/-- `u64::checked_mul`: `some` of the product when it fits in 64 bits. -/
def checked_mul (a b : Nat) : Option Nat :=
  if a * b < wordModulus then some (a * b) else none

/-- `u64::checked_add`: `some` of the sum when it fits in 64 bits. -/
def checked_add (a b : Nat) : Option Nat :=
  if a + b < wordModulus then some (a + b) else none

/-- `u64::checked_sub`: `some` of the difference when it does not underflow. -/
def checked_sub (a b : Nat) : Option Nat :=
  if b ≤ a then some (a - b) else none

/-- `num_integer::div_ceil` on unsigned integers: ceiling division. -/
def div_ceil (a b : Nat) : Nat :=
  if a % b = 0 then a / b else a / b + 1

/-- `u64::try_from(u128)` followed by `.ok()`: `some` when the value fits. -/
def u64_try_from (n : Nat) : Option Nat :=
  if n < wordModulus then some n else none

/--
`ConsensusParameters` (the flat struct of limits and pricing coefficients
consumed by validation and fee computation; the struct itself lives outside
the provided sources, its field list is fixed by the spec and by every use
site in `validation.rs` and `fee.rs`). All fields are numeric.
-/
structure ConsensusParameters where
  max_inputs : Nat
  max_outputs : Nat
  max_witnesses : Nat
  max_gas_per_tx : Nat
  max_script_length : Nat
  max_script_data_length : Nat
  max_storage_slots : Nat
  contract_max_size : Nat
  max_predicate_length : Nat
  max_predicate_data_length : Nat
  max_message_data_length : Nat
  gas_per_byte : Nat
  gas_price_factor : Nat
deriving DecidableEq

/-- `TransactionFee` from `fee.rs`: the metered-bytes fee and the total fee. -/
structure TransactionFee where
  bytes : Nat
  total : Nat
deriving DecidableEq

/--
`TransactionFee::from_values` from `fee.rs`, translated step for step:
`bytes₀ = gas_per_byte.checked_mul(metered_bytes)` (64-bit checked);
`total = ((bytes₀ + gas_limit) * gas_price)` via 64-bit checked ops, then
`div_ceil` against `gas_price_factor` in the 128-bit type and `try_into`;
`bytes = (bytes₀ * gas_price)` likewise.  `None` anywhere yields
`ArithmeticOverflow`; here `none` stands for that error.
-/
def TransactionFee.from_values (params : ConsensusParameters)
    (metered_bytes gas_limit gas_price : Nat) : Option TransactionFee :=
  let factor := params.gas_price_factor
  let bytes0 := checked_mul params.gas_per_byte metered_bytes
  let total := (bytes0.bind (fun b => checked_add b gas_limit)).bind
    (fun t => checked_mul t gas_price) |>.bind
    (fun t => u64_try_from (div_ceil t factor))
  let bytes := (bytes0.bind (fun b => checked_mul b gas_price)).bind
    (fun b => u64_try_from (div_ceil b factor))
  match bytes, total with
  | some b, some t => some ⟨b, t⟩
  | _, _ => none

/-- `UtxoId` from `utxo_id.rs`: a 32-byte transaction id and a `u8` index. -/
structure UtxoId where
  tx_id : List Nat
  output_index : Nat
deriving DecidableEq

/-- `TxPointer` from `tx_pointer.rs`: `u32` block height and `u16` index. -/
structure TxPointer where
  block_height : Nat
  tx_index : Nat
deriving DecidableEq

/-- `StorageSlot` from `storage.rs`: a 32-byte key and a 32-byte value. -/
structure StorageSlot where
  key : List Nat
  value : List Nat
deriving DecidableEq

/-- Lexicographic `<=` on byte strings, the `Ord` of the fixed byte arrays. -/
def bytesLe : List Nat → List Nat → Bool
  | [], _ => true
  | _ :: _, [] => false
  | a :: as, b :: bs => if a < b then true else if a = b then bytesLe as bs else false

/-- `StorageSlot`'s `PartialOrd`/`Ord` from `storage.rs` compares keys only. -/
def StorageSlot.le (a b : StorageSlot) : Bool :=
  bytesLe a.key b.key

/-- A `Witness` is an opaque owned byte string. -/
abbrev Witness := List Nat

/-- The data of a witness (`Witness::as_ref`). -/
def Witness.data (w : Witness) : List Nat := w

/-- `Input` from `input.rs`: the five business-logic variants. -/
inductive Input where
  | CoinSigned (utxo_id : UtxoId) (owner : List Nat) (amount : Nat)
      (asset_id : List Nat) (tx_pointer : TxPointer) (witness_index : Nat)
      (maturity : Nat)
  | CoinPredicate (utxo_id : UtxoId) (owner : List Nat) (amount : Nat)
      (asset_id : List Nat) (tx_pointer : TxPointer) (maturity : Nat)
      (predicate : List Nat) (predicate_data : List Nat)
  | Contract (utxo_id : UtxoId) (balance_root : List Nat) (state_root : List Nat)
      (tx_pointer : TxPointer) (contract_id : List Nat)
  | MessageSigned (message_id : List Nat) (sender : List Nat) (recipient : List Nat)
      (amount : Nat) (nonce : Nat) (witness_index : Nat) (data : List Nat)
  | MessagePredicate (message_id : List Nat) (sender : List Nat) (recipient : List Nat)
      (amount : Nat) (nonce : Nat) (data : List Nat) (predicate : List Nat)
      (predicate_data : List Nat)
deriving DecidableEq

/-- `InputSpec` from `input/repr.rs`: the three wire-layout variants. -/
inductive InputSpec where
  | Coin (utxo_id : UtxoId) (owner : List Nat) (amount : Nat) (asset_id : List Nat)
      (tx_pointer : TxPointer) (witness_index : Nat) (maturity : Nat)
      (predicate : List Nat) (predicate_data : List Nat)
  | Contract (utxo_id : UtxoId) (balance_root : List Nat) (state_root : List Nat)
      (tx_pointer : TxPointer) (contract_id : List Nat)
  | Message (message_id : List Nat) (sender : List Nat) (recipient : List Nat)
      (amount : Nat) (nonce : Nat) (witness_index : Nat) (data : List Nat)
      (predicate : List Nat) (predicate_data : List Nat)
deriving DecidableEq

/-- `From<Input> for InputSpec` from `input.rs`: signed variants carry empty
predicates, predicate variants a zero witness index. -/
def InputSpec.ofInput : Input → InputSpec
  | .CoinSigned utxo_id owner amount asset_id tx_pointer witness_index maturity =>
      .Coin utxo_id owner amount asset_id tx_pointer witness_index maturity [] []
  | .CoinPredicate utxo_id owner amount asset_id tx_pointer maturity predicate predicate_data =>
      .Coin utxo_id owner amount asset_id tx_pointer 0 maturity predicate predicate_data
  | .Contract utxo_id balance_root state_root tx_pointer contract_id =>
      .Contract utxo_id balance_root state_root tx_pointer contract_id
  | .MessageSigned message_id sender recipient amount nonce witness_index data =>
      .Message message_id sender recipient amount nonce witness_index data [] []
  | .MessagePredicate message_id sender recipient amount nonce data predicate predicate_data =>
      .Message message_id sender recipient amount nonce 0 data predicate predicate_data

/-- `From<InputSpec> for Input` from `input.rs`: an empty predicate selects
the signed variant, a non-empty one the predicate variant. -/
def Input.ofInputSpec : InputSpec → Input
  | .Coin utxo_id owner amount asset_id tx_pointer witness_index maturity predicate predicate_data =>
      if predicate.isEmpty then
        .CoinSigned utxo_id owner amount asset_id tx_pointer witness_index maturity
      else
        .CoinPredicate utxo_id owner amount asset_id tx_pointer maturity predicate predicate_data
  | .Contract utxo_id balance_root state_root tx_pointer contract_id =>
      .Contract utxo_id balance_root state_root tx_pointer contract_id
  | .Message message_id sender recipient amount nonce witness_index data predicate predicate_data =>
      if predicate.isEmpty then
        .MessageSigned message_id sender recipient amount nonce witness_index data
      else
        .MessagePredicate message_id sender recipient amount nonce data predicate predicate_data

/-- `Output` from `output.rs`: the six variants, in declaration order. -/
inductive Output where
  | Coin (toAddress : List Nat) (amount : Nat) (asset_id : List Nat)
  | Contract (input_index : Nat) (balance_root : List Nat) (state_root : List Nat)
  | Message (recipient : List Nat) (amount : Nat)
  | Change (toAddress : List Nat) (amount : Nat) (asset_id : List Nat)
  | Variable (toAddress : List Nat) (amount : Nat) (asset_id : List Nat)
  | ContractCreated (contract_id : List Nat) (state_root : List Nat)
deriving DecidableEq

/--
Modelled from the spec: the `Transaction` enum with struct-like variants
`Script`, `Create`, `Mint` pattern-matched throughout `validation.rs`,
`offset.rs` and `internals.rs` is not among the provided sources; its field
sets are fixed by those pattern matches, by the spec's data model and by the
`Script`/`Create` struct definitions in `types/script.rs` and
`types/create.rs` (minus the placeholder metadata cache slot).
-/
inductive Transaction where
  | Script (gas_price : Nat) (gas_limit : Nat) (maturity : Nat)
      (script : List Nat) (script_data : List Nat) (inputs : List Input)
      (outputs : List Output) (witnesses : List Witness) (receipts_root : List Nat)
  | Create (gas_price : Nat) (gas_limit : Nat) (maturity : Nat)
      (bytecode_length : Nat) (bytecode_witness_index : Nat)
      (storage_slots : List StorageSlot) (inputs : List Input)
      (outputs : List Output) (witnesses : List Witness) (salt : List Nat)
  | Mint (outputs : List Output)
deriving DecidableEq

/-- The inputs owned by a transaction; `Mint` owns none. -/
def Transaction.inputsOf : Transaction → List Input
  | .Script _ _ _ _ _ inputs _ _ _ => inputs
  | .Create _ _ _ _ _ _ inputs _ _ _ => inputs
  | .Mint _ => []

/-- The outputs owned by a transaction. -/
def Transaction.outputsOf : Transaction → List Output
  | .Script _ _ _ _ _ _ outputs _ _ => outputs
  | .Create _ _ _ _ _ _ _ outputs _ _ => outputs
  | .Mint outputs => outputs

/-- The witnesses owned by a transaction; `Mint` owns none. -/
def Transaction.witnessesOf : Transaction → List Witness
  | .Script _ _ _ _ _ _ _ witnesses _ => witnesses
  | .Create _ _ _ _ _ _ _ _ witnesses _ => witnesses
  | .Mint _ => []

/-- `Input::is_coin`. -/
def Input.is_coin : Input → Bool
  | .CoinSigned .. => true
  | .CoinPredicate .. => true
  | _ => false

/-- `Input::utxo_id`: present for coin and contract inputs. -/
def Input.utxo_id : Input → Option UtxoId
  | .CoinSigned utxo_id .. => some utxo_id
  | .CoinPredicate utxo_id .. => some utxo_id
  | .Contract utxo_id .. => some utxo_id
  | .MessageSigned .. => none
  | .MessagePredicate .. => none

/-- `Input::contract_id`: present for contract inputs only. -/
def Input.contract_id_of : Input → Option (List Nat)
  | .Contract _ _ _ _ contract_id => some contract_id
  | _ => none

/-- `Input::message_id`: present for message inputs only. -/
def Input.message_id_of : Input → Option (List Nat)
  | .MessageSigned message_id .. => some message_id
  | .MessagePredicate message_id .. => some message_id
  | _ => none

/-- `AssetId::default()` (= `AssetId::BASE`), the all-zero 32-byte id. -/
def baseAssetId : List Nat := List.replicate 32 0

/-- `Executable::input_asset_ids`: coin inputs contribute their asset id,
message inputs the base asset, contract inputs nothing. -/
def input_asset_ids (inputs : List Input) : List (List Nat) :=
  inputs.filterMap fun input =>
    match input with
    | .CoinPredicate _ _ _ asset_id _ _ _ _ => some asset_id
    | .CoinSigned _ _ _ asset_id _ _ _ => some asset_id
    | .MessagePredicate .. => some baseAssetId
    | .MessageSigned .. => some baseAssetId
    | .Contract .. => none

/-- First-occurrence deduplication, the `Itertools::unique` adaptor used by
`input_asset_ids_unique` under `std`. -/
def uniqueFirst {α : Type} [DecidableEq α] : List α → List α → List α
  | [], _ => []
  | a :: rest, seen =>
      if a ∈ seen then uniqueFirst rest seen
      else a :: uniqueFirst rest (a :: seen)

/-- `Executable::input_asset_ids_unique` (std path). -/
def input_asset_ids_unique (inputs : List Input) : List (List Nat) :=
  uniqueFirst (input_asset_ids inputs) []

/--
`next_duplicate` from `internals.rs`, `std` path: `iter.duplicates().next()`.
`Itertools::duplicates` yields an element the second time it is seen, so
`next()` returns the value whose second occurrence comes first. The `seen`
accumulator carries the values already traversed.
-/
def next_duplicate_std_aux {α : Type} [DecidableEq α] : List α → List α → Option α
  | [], _ => none
  | a :: rest, seen =>
      if a ∈ seen then some a else next_duplicate_std_aux rest (a :: seen)

/-- `next_duplicate` from `internals.rs`, `std` path, from an empty history. -/
def next_duplicate_std {α : Type} [DecidableEq α] (l : List α) : Option α :=
  next_duplicate_std_aux l []

/-- Adjacent-equal scan: `windows(2).filter_map(|u| (u[0] == u[1]).then(|| u[0])).next()`. -/
def firstAdjacentDup {α : Type} [DecidableEq α] : List α → Option α
  | a :: b :: rest => if a = b then some a else firstAdjacentDup (b :: rest)
  | _ => none

/-- `next_duplicate` from `internals.rs`, `no_std` path: stable ascending
sort followed by the adjacent-equal scan. -/
def next_duplicate_sorted {α : Type} [DecidableEq α] [LinearOrder α] (l : List α) : Option α :=
  firstAdjacentDup (l.insertionSort (· ≤ ·))

/-- `ValidationError` from `validation/error.rs` (the variants used by the
validation and balance paths modelled here). -/
inductive ValidationError where
  | TransactionGasLimit
  | TransactionMaturity
  | TransactionInputsMax
  | TransactionOutputsMax
  | TransactionWitnessesMax
  | TransactionOutputChangeAssetIdDuplicated
  | DuplicateInputUtxoId (utxo_id : UtxoId)
  | DuplicateInputContractId (contract_id : List Nat)
  | DuplicateMessageInputId (message_id : List Nat)
  | InputPredicateEmpty (index : Nat)
  | InputPredicateLength (index : Nat)
  | InputPredicateDataLength (index : Nat)
  | InputWitnessIndexBounds (index : Nat)
  | InputContractAssociatedOutputContract (index : Nat)
  | InputMessageDataLength (index : Nat)
  | OutputContractInputIndex (index : Nat)
  | TransactionOutputChangeAssetIdNotFound (asset_id : List Nat)
  | TransactionOutputCoinAssetIdNotFound (asset_id : List Nat)
  | TransactionScriptLength
  | TransactionScriptDataLength
  | TransactionScriptOutputContractCreated (index : Nat)
  | TransactionCreateBytecodeWitnessIndex
  | TransactionCreateBytecodeLen
  | TransactionCreateStorageSlotMax
  | TransactionCreateStorageSlotOrder
  | TransactionCreateInputContract (index : Nat)
  | TransactionCreateOutputContract (index : Nat)
  | TransactionCreateOutputVariable (index : Nat)
  | TransactionCreateOutputChangeNotBaseAsset (index : Nat)
  | TransactionCreateOutputContractCreatedMultiple (index : Nat)
  | OutputOfMintIsNotCoin
  | TransactionOutputCoinAssetIdDuplicated
  | InsufficientFeeAmount (expected : Nat) (provided : Nat)
  | InsufficientInputAmount (asset : List Nat) (expected : Nat) (provided : Nat)
deriving DecidableEq

/--
`Input::validate_without_signature` from `validation.rs`: the match arms are
replayed per concrete variant, guards in the source's top-down order.
-/
def Input.validate_without_signature (input : Input) (index : Nat)
    (outputs : List Output) (witnesses : List Witness)
    (parameters : ConsensusParameters) : Except ValidationError Unit :=
  match input with
  | .CoinPredicate _ _ _ _ _ _ predicate predicate_data =>
      if predicate.isEmpty then .error (.InputPredicateEmpty index)
      else if parameters.max_predicate_length < predicate.length then
        .error (.InputPredicateLength index)
      else if parameters.max_predicate_data_length < predicate_data.length then
        .error (.InputPredicateDataLength index)
      else .ok ()
  | .MessagePredicate _ _ _ _ _ data predicate predicate_data =>
      if predicate.isEmpty then .error (.InputPredicateEmpty index)
      else if parameters.max_predicate_length < predicate.length then
        .error (.InputPredicateLength index)
      else if parameters.max_predicate_data_length < predicate_data.length then
        .error (.InputPredicateDataLength index)
      else if parameters.max_message_data_length < data.length then
        .error (.InputMessageDataLength index)
      else .ok ()
  | .CoinSigned _ _ _ _ _ witness_index _ =>
      if witnesses.length ≤ witness_index then
        .error (.InputWitnessIndexBounds index)
      else .ok ()
  | .MessageSigned _ _ _ _ _ witness_index data =>
      if witnesses.length ≤ witness_index then
        .error (.InputWitnessIndexBounds index)
      else if parameters.max_message_data_length < data.length then
        .error (.InputMessageDataLength index)
      else .ok ()
  | .Contract .. =>
      if (outputs.countP fun output =>
            match output with
            | .Contract input_index _ _ => decide (input_index = index)
            | _ => false) ≠ 1 then
        .error (.InputContractAssociatedOutputContract index)
      else .ok ()

/-- `Output::validate` from `validation.rs`: a `Contract` output's
`input_index` must name an `Input::Contract` at that position. -/
def Output.validate (output : Output) (index : Nat) (inputs : List Input) :
    Except ValidationError Unit :=
  match output with
  | .Contract input_index _ _ =>
      match inputs.get? input_index with
      | some (.Contract ..) => .ok ()
      | _ => .error (.OutputContractInputIndex index)
  | _ => .ok ()

/-- `try_for_each` over an indexed list, short-circuiting at the first error. -/
def tryForEachIdx {α : Type} (f : Nat → α → Except ValidationError Unit) :
    Nat → List α → Except ValidationError Unit
  | _, [] => .ok ()
  | i, a :: rest => do
      f i a
      tryForEachIdx f (i + 1) rest

/-- The utxo ids of coin inputs, the sequence fed to the duplicate check:
`inputs.iter().filter_map(|i| i.is_coin().then(|| i.utxo_id()).flatten())`. -/
def coin_input_utxo_ids (inputs : List Input) : List UtxoId :=
  inputs.filterMap fun i => if i.is_coin then i.utxo_id else none

/-- The per-output body of the final loop of
`validate_without_signature_internal`: `Output::validate` followed by the
`Change`/`Coin` asset-id presence checks. -/
def output_asset_check (inputs : List Input) (index : Nat) (output : Output) :
    Except ValidationError Unit := do
  output.validate index inputs
  match output with
  | .Change _ _ asset_id =>
      if asset_id ∈ input_asset_ids inputs then .ok ()
      else .error (.TransactionOutputChangeAssetIdNotFound asset_id)
  | .Coin _ _ asset_id =>
      if asset_id ∈ input_asset_ids inputs then .ok ()
      else .error (.TransactionOutputCoinAssetIdNotFound asset_id)
  | _ => .ok ()

/-- `Transaction::validate_without_signature_internal` from `validation.rs`,
check for check in the source's order. -/
def validate_without_signature_internal (block_height : Nat)
    (parameters : ConsensusParameters) (gas_limit maturity : Nat)
    (inputs : List Input) (outputs : List Output) (witnesses : List Witness) :
    Except ValidationError Unit := do
  if parameters.max_gas_per_tx < gas_limit then
    throw .TransactionGasLimit
  else if block_height < maturity then
    throw .TransactionMaturity
  else if parameters.max_inputs < inputs.length then
    throw .TransactionInputsMax
  else if parameters.max_outputs < outputs.length then
    throw .TransactionOutputsMax
  else if parameters.max_witnesses < witnesses.length then
    throw .TransactionWitnessesMax
  else if (input_asset_ids_unique inputs).any (fun input_asset_id =>
      1 < outputs.countP fun output =>
        match output with
        | .Change _ _ asset_id => decide (input_asset_id = asset_id)
        | _ => false) then
    throw .TransactionOutputChangeAssetIdDuplicated
  else
    match next_duplicate_std (coin_input_utxo_ids inputs) with
    | some utxo_id => throw (.DuplicateInputUtxoId utxo_id)
    | none =>
    match next_duplicate_std (inputs.filterMap Input.contract_id_of) with
    | some contract_id => throw (.DuplicateInputContractId contract_id)
    | none =>
    match next_duplicate_std (inputs.filterMap Input.message_id_of) with
    | some message_id => throw (.DuplicateMessageInputId message_id)
    | none => do
      tryForEachIdx
        (fun index input =>
          input.validate_without_signature index outputs witnesses parameters)
        0 inputs
      tryForEachIdx (output_asset_check inputs) 0 outputs

/-- The per-output body of the `Create`-specific output loop of
`validate_without_signature`; the boolean is the `contract_created` flag. -/
def create_output_check (index : Nat) (output : Output) (contract_created : Bool) :
    Except ValidationError Bool :=
  match output with
  | .Contract .. => .error (.TransactionCreateOutputContract index)
  | .Variable .. => .error (.TransactionCreateOutputVariable index)
  | .Change _ _ asset_id =>
      if asset_id ≠ baseAssetId then
        .error (.TransactionCreateOutputChangeNotBaseAsset index)
      else .ok contract_created
  | .ContractCreated .. =>
      if contract_created then
        .error (.TransactionCreateOutputContractCreatedMultiple index)
      else .ok true
  | _ => .ok contract_created

/-- The `Create` output loop, threading the `contract_created` flag. -/
def create_outputs_loop : Nat → Bool → List Output → Except ValidationError Unit
  | _, _, [] => .ok ()
  | i, contract_created, output :: rest => do
      let contract_created ← create_output_check i output contract_created
      create_outputs_loop (i + 1) contract_created rest

/-- The `Mint` arm of `validate_without_signature`: every output must be a
`Coin`, collecting asset ids into a set; a cardinality mismatch at the end
reports a duplicated asset id. `seen` is the `HashSet` accumulator. -/
def mint_outputs_check (seen : List (List Nat)) :
    List Output → Except ValidationError (List (List Nat))
  | [] => .ok seen
  | output :: rest =>
      match output with
      | .Coin _ _ asset_id =>
          mint_outputs_check (if asset_id ∈ seen then seen else asset_id :: seen) rest
      | _ => .error .OutputOfMintIsNotCoin

/-- `Transaction::validate_without_signature` from `validation.rs`. -/
def Transaction.validate_without_signature (tx : Transaction) (block_height : Nat)
    (parameters : ConsensusParameters) : Except ValidationError Unit :=
  match tx with
  | .Script gas_price gas_limit maturity script script_data inputs outputs witnesses receipts_root => do
      let _ := gas_price
      let _ := receipts_root
      validate_without_signature_internal block_height parameters gas_limit maturity
        inputs outputs witnesses
      if parameters.max_script_length < script.length then
        throw .TransactionScriptLength
      else if parameters.max_script_data_length < script_data.length then
        throw .TransactionScriptDataLength
      else
        tryForEachIdx
          (fun index output =>
            match output with
            | .ContractCreated .. =>
                .error (.TransactionScriptOutputContractCreated index)
            | _ => .ok ())
          0 outputs
  | .Create gas_price gas_limit maturity bytecode_length bytecode_witness_index
      storage_slots inputs outputs witnesses salt => do
      let _ := gas_price
      let _ := salt
      validate_without_signature_internal block_height parameters gas_limit maturity
        inputs outputs witnesses
      match (witnesses.get? bytecode_witness_index).map (fun w => w.data.length) with
      | none => throw .TransactionCreateBytecodeWitnessIndex
      | some bytecode_witness_len =>
        if parameters.contract_max_size < bytecode_witness_len
            ∨ bytecode_witness_len / 4 ≠ bytecode_length then
          throw .TransactionCreateBytecodeLen
        else if parameters.max_storage_slots < storage_slots.length then
          throw .TransactionCreateStorageSlotMax
        else if ¬ (storage_slots.Chain' fun a b => StorageSlot.le a b) then
          throw .TransactionCreateStorageSlotOrder
        else do
          tryForEachIdx
            (fun index input =>
              match input with
              | .Contract .. => .error (.TransactionCreateInputContract index)
              | _ => .ok ())
            0 inputs
          create_outputs_loop 0 false outputs
  | .Mint outputs => do
      let unique_assets ← mint_outputs_check [] outputs
      if unique_assets.length ≠ outputs.length then
        throw .TransactionOutputCoinAssetIdDuplicated
      else
        .ok ()

/-- Lookup in the balance map (`BTreeMap::get`). Keys are asset ids. -/
def mapGet (m : List (List Nat × Nat)) (k : List Nat) : Option Nat :=
  match m with
  | [] => none
  | (k0, v0) :: rest => if k = k0 then some v0 else mapGet rest k

/-- `balances.entry(asset_id).or_default() += amount`: insert-or-accumulate,
keeping the map sorted by key as a `BTreeMap` does; the addition wraps at
64 bits (release-mode `+=` semantics on `Word`). -/
def balAdd (m : List (List Nat × Nat)) (k : List Nat) (v : Nat) :
    List (List Nat × Nat) :=
  match m with
  | [] => [(k, (0 + v) % wordModulus)]
  | (k0, v0) :: rest =>
      if k = k0 then (k0, (v0 + v) % wordModulus) :: rest
      else if bytesLe k k0 then (k, (0 + v) % wordModulus) :: (k0, v0) :: rest
      else (k0, v0) :: balAdd rest k v

/-- Overwrite the value stored at a key already present in the map. -/
def mapSet (m : List (List Nat × Nat)) (k : List Nat) (v : Nat) :
    List (List Nat × Nat) :=
  match m with
  | [] => []
  | (k0, v0) :: rest =>
      if k = k0 then (k0, v) :: rest else (k0, v0) :: mapSet rest k v

/-- Phase one of `_initial_free_balances` from `checked_transaction.rs`:
sum all coin-input amounts per asset id. -/
def sum_coin_inputs (inputs : List Input) : List (List Nat × Nat) :=
  inputs.foldl
    (fun m input =>
      match input with
      | .CoinPredicate _ _ amount asset_id _ _ _ _ => balAdd m asset_id amount
      | .CoinSigned _ _ amount asset_id _ _ _ => balAdd m asset_id amount
      | _ => m)
    []

/-- Phase three of `_initial_free_balances`: reduce the balances by each
`Coin` output, with the source's two failure modes. -/
def coin_outputs_reduce (balances : List (List Nat × Nat)) :
    List Output → Except ValidationError (List (List Nat × Nat))
  | [] => .ok balances
  | output :: rest =>
      match output with
      | .Coin _ amount asset_id =>
          match mapGet balances asset_id with
          | none => .error (.TransactionOutputCoinAssetIdNotFound asset_id)
          | some balance =>
              match checked_sub balance amount with
              | none => .error (.InsufficientInputAmount asset_id amount balance)
              | some reduced =>
                  coin_outputs_reduce (mapSet balances asset_id reduced) rest
      | _ => coin_outputs_reduce balances rest

/--
`CheckedTransaction::_initial_free_balances` from `checked_transaction.rs`,
with the already-computed total fee passed in (the source computes it just
above from `byte_price`/`gas_price` via `f64` ceilings; every theorem below
is quantified over the fee value).  Phase two looks the base asset up with
`get_mut` and fails with `InsufficientFeeAmount { expected: fee, provided: 0 }`
when the entry is absent, then `checked_sub`s the fee.
-/
def initial_free_balances (inputs : List Input) (outputs : List Output)
    (fee : Nat) : Except ValidationError (List (List Nat × Nat)) :=
  let balances := sum_coin_inputs inputs
  match mapGet balances baseAssetId with
  | none => .error (.InsufficientFeeAmount fee 0)
  | some balance =>
      match checked_sub balance fee with
      | none => .error (.InsufficientFeeAmount fee balance)
      | some reduced =>
          coin_outputs_reduce (mapSet balances baseAssetId reduced) outputs

/--
The balance computation exactly as the claim states it: identical to
`initial_free_balances` except in phase two, where the base-asset balance is
read off as zero when absent and the computation "fails if that subtraction
would go negative" — so a zero fee with no base-asset entry succeeds and
leaves the mapping untouched.
-/
def claimed_initial_free_balances (inputs : List Input) (outputs : List Output)
    (fee : Nat) : Except ValidationError (List (List Nat × Nat)) :=
  let balances := sum_coin_inputs inputs
  let provided := (mapGet balances baseAssetId).getD 0
  if provided < fee then .error (.InsufficientFeeAmount fee provided)
  else
    match mapGet balances baseAssetId with
    | none => coin_outputs_reduce balances outputs
    | some balance =>
        coin_outputs_reduce (mapSet balances baseAssetId (balance - fee)) outputs

/--
`claimed_initial_free_balances` amended no further than the counterexample
forces: when the mapping holds no base-asset entry at all, the code fails
with `InsufficientFeeAmount { expected: fee, provided: 0 }` even for a zero
fee, instead of succeeding.
-/
def amended_initial_free_balances (inputs : List Input) (outputs : List Output)
    (fee : Nat) : Except ValidationError (List (List Nat × Nat)) :=
  let balances := sum_coin_inputs inputs
  match mapGet balances baseAssetId with
  | none => .error (.InsufficientFeeAmount fee 0)
  | some balance =>
      if balance < fee then .error (.InsufficientFeeAmount fee balance)
      else coin_outputs_reduce (mapSet balances baseAssetId (balance - fee)) outputs

/-! ## Canonical codec

The primitive rules are translated from `io.rs`: every scalar occupies an
8-byte word (numbers big-endian, `u8`/`u16`/`u32` followed by zero padding to
the word boundary), fixed byte arrays are written verbatim, byte vectors
write their length as a word in the static phase and their padded payload in
the dynamic phase, and enums write their ordinal as a word tag.  The
composite layouts follow the field orders of `types/script.rs`,
`types/create.rs`, `input/repr.rs` and `output.rs`; the `Transaction`
envelope discriminant is `Script = 0`, `Create = 1`, `Mint = 2`.
-/

/-- `Error` from `io.rs`. -/
inductive CodecError where
  | IsNotAligned
  | BufferItTooShort
  | UnknownDiscriminant
  | WrongAlign
deriving DecidableEq

/-- `fill_bytes` from `io.rs`: zero bytes needed to reach the next word. -/
def fill_bytes (len : Nat) : Nat :=
  (8 - len % 8) % 8

/-- `bytes::padded_len`: length of a byte string padded to the word size. -/
def padded_len (l : List Nat) : Nat :=
  l.length + fill_bytes l.length

/-- Big-endian byte string of fixed width `k` (most significant first). -/
def toBytesBE : Nat → Nat → List Nat
  | 0, _ => []
  | k + 1, n => toBytesBE k (n / 256) ++ [n % 256]

/-- Recover a number from big-endian bytes. -/
def fromBytesBE (l : List Nat) : Nat :=
  l.foldl (fun acc b => acc * 256 + b) 0

/-- A full 8-byte word, the encoding of `u64`/`usize` and of enum tags. -/
def word64 (n : Nat) : List Nat := toBytesBE 8 n

/-- The encoding of `u8`: the value byte, then seven zero fill bytes. -/
def u8enc (n : Nat) : List Nat := n % 256 :: List.replicate 7 0

/-- The encoding of `u16`: two big-endian bytes, then six fill bytes. -/
def u16enc (n : Nat) : List Nat := toBytesBE 2 n ++ List.replicate 6 0

/-- The encoding of `u32`: four big-endian bytes, then four fill bytes. -/
def u32enc (n : Nat) : List Nat := toBytesBE 4 n ++ List.replicate 4 0

/-- The dynamic-phase payload of a byte vector: raw bytes, then padding. -/
def vecPayload (l : List Nat) : List Nat :=
  l ++ List.replicate (fill_bytes l.length) 0

/-- `Input::read` from `io.rs` for byte slices: take exactly `k` bytes. -/
def readBytes (k : Nat) (s : List Nat) : Except CodecError (List Nat × List Nat) :=
  if k ≤ s.length then .ok (s.take k, s.drop k) else .error .BufferItTooShort

/-- `Input::skip` from `io.rs` for byte slices. -/
def skipBytes (k : Nat) (s : List Nat) : Except CodecError (List Nat) :=
  if k ≤ s.length then .ok (s.drop k) else .error .BufferItTooShort

/-- Decode a `u64` word. -/
def readWord (s : List Nat) : Except CodecError (Nat × List Nat) := do
  let (bytes, rest) ← readBytes 8 s
  .ok (fromBytesBE bytes, rest)

/-- Decode a `u8`: one byte, then skip its seven fill bytes. -/
def readU8 (s : List Nat) : Except CodecError (Nat × List Nat) := do
  let (bytes, rest) ← readBytes 1 s
  let rest ← skipBytes 7 rest
  .ok (fromBytesBE bytes, rest)

/-- Decode a `u16`: two bytes, then skip six fill bytes. -/
def readU16 (s : List Nat) : Except CodecError (Nat × List Nat) := do
  let (bytes, rest) ← readBytes 2 s
  let rest ← skipBytes 6 rest
  .ok (fromBytesBE bytes, rest)

/-- Decode a `u32`: four bytes, then skip four fill bytes. -/
def readU32 (s : List Nat) : Except CodecError (Nat × List Nat) := do
  let (bytes, rest) ← readBytes 4 s
  let rest ← skipBytes 4 rest
  .ok (fromBytesBE bytes, rest)

/-- Decode the dynamic payload of a byte vector of known length. -/
def readVarBytes (count : Nat) (s : List Nat) :
    Except CodecError (List Nat × List Nat) := do
  let (bytes, rest) ← readBytes count s
  let rest ← skipBytes (fill_bytes count) rest
  .ok (bytes, rest)

/-- Encoding of `UtxoId` (fields in order: 32-byte `tx_id`, `u8` index). -/
def UtxoId.encodeBytes (u : UtxoId) : List Nat :=
  u.tx_id ++ u8enc u.output_index

/-- Decode a `UtxoId`. -/
def decodeUtxoId (s : List Nat) : Except CodecError (UtxoId × List Nat) := do
  let (tx_id, rest) ← readBytes 32 s
  let (output_index, rest) ← readU8 rest
  .ok (⟨tx_id, output_index⟩, rest)

/-- Encoding of `TxPointer` (`u32` block height, `u16` index). -/
def TxPointer.encodeBytes (p : TxPointer) : List Nat :=
  u32enc p.block_height ++ u16enc p.tx_index

/-- Decode a `TxPointer`. -/
def decodeTxPointer (s : List Nat) : Except CodecError (TxPointer × List Nat) := do
  let (block_height, rest) ← readU32 s
  let (tx_index, rest) ← readU16 rest
  .ok (⟨block_height, tx_index⟩, rest)

/-- Encoding of a `StorageSlot`: its key then its value, verbatim. -/
def StorageSlot.encodeBytes (slot : StorageSlot) : List Nat :=
  slot.key ++ slot.value

/-- Decode a `StorageSlot`. -/
def decodeStorageSlot (s : List Nat) : Except CodecError (StorageSlot × List Nat) := do
  let (key, rest) ← readBytes 32 s
  let (value, rest) ← readBytes 32 rest
  .ok (⟨key, value⟩, rest)

/-- Encoding of a `Witness`: its length word, then the padded payload. -/
def Witness.encodeBytes (w : Witness) : List Nat :=
  word64 w.data.length ++ vecPayload w.data

/-- Decode a `Witness`. -/
def decodeWitness (s : List Nat) : Except CodecError (Witness × List Nat) := do
  let (count, rest) ← readWord s
  let (data, rest) ← readVarBytes count rest
  .ok (data, rest)

/--
Encoding of `InputSpec` per the tagged-union rule: the variant ordinal as a
word (`Coin = 0`, `Contract = 1`, `Message = 2` from `input/repr.rs`), the
static parts of the fields in order (byte-vector fields contribute their
length words), then the dynamic payloads in field order.
-/
def InputSpec.encodeBytes : InputSpec → List Nat
  | .Coin utxo_id owner amount asset_id tx_pointer witness_index maturity
      predicate predicate_data =>
      word64 0 ++ utxo_id.encodeBytes ++ owner ++ word64 amount ++ asset_id
        ++ tx_pointer.encodeBytes ++ u8enc witness_index ++ word64 maturity
        ++ word64 predicate.length ++ word64 predicate_data.length
        ++ vecPayload predicate ++ vecPayload predicate_data
  | .Contract utxo_id balance_root state_root tx_pointer contract_id =>
      word64 1 ++ utxo_id.encodeBytes ++ balance_root ++ state_root
        ++ tx_pointer.encodeBytes ++ contract_id
  | .Message message_id sender recipient amount nonce witness_index data
      predicate predicate_data =>
      word64 2 ++ message_id ++ sender ++ recipient ++ word64 amount
        ++ word64 nonce ++ u8enc witness_index ++ word64 data.length
        ++ word64 predicate.length ++ word64 predicate_data.length
        ++ vecPayload data ++ vecPayload predicate ++ vecPayload predicate_data

/-- Decode an `InputSpec`: read the tag word and dispatch; an unknown tag is
`UnknownDiscriminant`. -/
def decodeInputSpec (s : List Nat) : Except CodecError (InputSpec × List Nat) := do
  let (tag, rest) ← readWord s
  if tag = 0 then do
    let (utxo_id, rest) ← decodeUtxoId rest
    let (owner, rest) ← readBytes 32 rest
    let (amount, rest) ← readWord rest
    let (asset_id, rest) ← readBytes 32 rest
    let (tx_pointer, rest) ← decodeTxPointer rest
    let (witness_index, rest) ← readU8 rest
    let (maturity, rest) ← readWord rest
    let (predicate_len, rest) ← readWord rest
    let (predicate_data_len, rest) ← readWord rest
    let (predicate, rest) ← readVarBytes predicate_len rest
    let (predicate_data, rest) ← readVarBytes predicate_data_len rest
    .ok (.Coin utxo_id owner amount asset_id tx_pointer witness_index maturity
      predicate predicate_data, rest)
  else if tag = 1 then do
    let (utxo_id, rest) ← decodeUtxoId rest
    let (balance_root, rest) ← readBytes 32 rest
    let (state_root, rest) ← readBytes 32 rest
    let (tx_pointer, rest) ← decodeTxPointer rest
    let (contract_id, rest) ← readBytes 32 rest
    .ok (.Contract utxo_id balance_root state_root tx_pointer contract_id, rest)
  else if tag = 2 then do
    let (message_id, rest) ← readBytes 32 rest
    let (sender, rest) ← readBytes 32 rest
    let (recipient, rest) ← readBytes 32 rest
    let (amount, rest) ← readWord rest
    let (nonce, rest) ← readWord rest
    let (witness_index, rest) ← readU8 rest
    let (data_len, rest) ← readWord rest
    let (predicate_len, rest) ← readWord rest
    let (predicate_data_len, rest) ← readWord rest
    let (data, rest) ← readVarBytes data_len rest
    let (predicate, rest) ← readVarBytes predicate_len rest
    let (predicate_data, rest) ← readVarBytes predicate_data_len rest
    .ok (.Message message_id sender recipient amount nonce witness_index data
      predicate predicate_data, rest)
  else
    .error .UnknownDiscriminant

/-- `Serialize for Input` from `input.rs`: convert to `InputSpec`, encode. -/
def Input.encodeBytes (input : Input) : List Nat :=
  (InputSpec.ofInput input).encodeBytes

/-- `Deserialize for Input` from `input.rs`: decode an `InputSpec`, convert. -/
def Input.decodeBytes (s : List Nat) : Except CodecError (Input × List Nat) := do
  let (spec, rest) ← decodeInputSpec s
  .ok (Input.ofInputSpec spec, rest)

/-- Encoding of `Output`: ordinal tag word (declaration order from
`output.rs`), then the fields. -/
def Output.encodeBytes : Output → List Nat
  | .Coin toAddress amount asset_id =>
      word64 0 ++ toAddress ++ word64 amount ++ asset_id
  | .Contract input_index balance_root state_root =>
      word64 1 ++ u8enc input_index ++ balance_root ++ state_root
  | .Message recipient amount =>
      word64 2 ++ recipient ++ word64 amount
  | .Change toAddress amount asset_id =>
      word64 3 ++ toAddress ++ word64 amount ++ asset_id
  | .Variable toAddress amount asset_id =>
      word64 4 ++ toAddress ++ word64 amount ++ asset_id
  | .ContractCreated contract_id state_root =>
      word64 5 ++ contract_id ++ state_root

/-- Decode an `Output`. -/
def decodeOutput (s : List Nat) : Except CodecError (Output × List Nat) := do
  let (tag, rest) ← readWord s
  if tag = 0 then do
    let (toAddress, rest) ← readBytes 32 rest
    let (amount, rest) ← readWord rest
    let (asset_id, rest) ← readBytes 32 rest
    .ok (.Coin toAddress amount asset_id, rest)
  else if tag = 1 then do
    let (input_index, rest) ← readU8 rest
    let (balance_root, rest) ← readBytes 32 rest
    let (state_root, rest) ← readBytes 32 rest
    .ok (.Contract input_index balance_root state_root, rest)
  else if tag = 2 then do
    let (recipient, rest) ← readBytes 32 rest
    let (amount, rest) ← readWord rest
    .ok (.Message recipient amount, rest)
  else if tag = 3 then do
    let (toAddress, rest) ← readBytes 32 rest
    let (amount, rest) ← readWord rest
    let (asset_id, rest) ← readBytes 32 rest
    .ok (.Change toAddress amount asset_id, rest)
  else if tag = 4 then do
    let (toAddress, rest) ← readBytes 32 rest
    let (amount, rest) ← readWord rest
    let (asset_id, rest) ← readBytes 32 rest
    .ok (.Variable toAddress amount asset_id, rest)
  else if tag = 5 then do
    let (contract_id, rest) ← readBytes 32 rest
    let (state_root, rest) ← readBytes 32 rest
    .ok (.ContractCreated contract_id state_root, rest)
  else
    .error .UnknownDiscriminant

/-- Decode `n` consecutive values with the supplied element decoder. -/
def decodeMany {α : Type} (dec : List Nat → Except CodecError (α × List Nat)) :
    Nat → List Nat → Except CodecError (List α × List Nat)
  | 0, s => .ok ([], s)
  | n + 1, s => do
      let (a, rest) ← dec s
      let (as, rest) ← decodeMany dec n rest
      .ok (a :: as, rest)

/--
Modelled from the spec: the `Serialize`/`Deserialize` implementations for the
transaction envelope are generated by the derive crate, which is not among
the provided sources in a form consistent with `io.rs`; the layout below
follows the spec's wire format (leading discriminant word `Script = 0`,
`Create = 1`, `Mint = 2`; the variant's fixed fields in declared order — the
orders of `types/script.rs` and `types/create.rs` — then the variable
payloads in field order).
-/
def Transaction.encodeBytes : Transaction → List Nat
  | .Script gas_price gas_limit maturity script script_data inputs outputs
      witnesses receipts_root =>
      word64 0 ++ word64 gas_price ++ word64 gas_limit ++ word64 maturity
        ++ word64 script.length ++ word64 script_data.length
        ++ word64 inputs.length ++ word64 outputs.length
        ++ word64 witnesses.length ++ receipts_root
        ++ vecPayload script ++ vecPayload script_data
        ++ (inputs.map Input.encodeBytes).flatten
        ++ (outputs.map Output.encodeBytes).flatten
        ++ (witnesses.map Witness.encodeBytes).flatten
  | .Create gas_price gas_limit maturity bytecode_length bytecode_witness_index
      storage_slots inputs outputs witnesses salt =>
      word64 1 ++ word64 gas_price ++ word64 gas_limit ++ word64 maturity
        ++ word64 bytecode_length ++ u8enc bytecode_witness_index
        ++ word64 storage_slots.length ++ word64 inputs.length
        ++ word64 outputs.length ++ word64 witnesses.length ++ salt
        ++ (storage_slots.map StorageSlot.encodeBytes).flatten
        ++ (inputs.map Input.encodeBytes).flatten
        ++ (outputs.map Output.encodeBytes).flatten
        ++ (witnesses.map Witness.encodeBytes).flatten
  | .Mint outputs =>
      word64 2 ++ word64 outputs.length
        ++ (outputs.map Output.encodeBytes).flatten

/-- Decode a `Transaction` (see `Transaction.encodeBytes` for provenance). -/
def Transaction.decodeBytes (s : List Nat) :
    Except CodecError (Transaction × List Nat) := do
  let (tag, rest) ← readWord s
  if tag = 0 then do
    let (gas_price, rest) ← readWord rest
    let (gas_limit, rest) ← readWord rest
    let (maturity, rest) ← readWord rest
    let (script_len, rest) ← readWord rest
    let (script_data_len, rest) ← readWord rest
    let (inputs_len, rest) ← readWord rest
    let (outputs_len, rest) ← readWord rest
    let (witnesses_len, rest) ← readWord rest
    let (receipts_root, rest) ← readBytes 32 rest
    let (script, rest) ← readVarBytes script_len rest
    let (script_data, rest) ← readVarBytes script_data_len rest
    let (inputs, rest) ← decodeMany Input.decodeBytes inputs_len rest
    let (outputs, rest) ← decodeMany decodeOutput outputs_len rest
    let (witnesses, rest) ← decodeMany decodeWitness witnesses_len rest
    .ok (.Script gas_price gas_limit maturity script script_data inputs outputs
      witnesses receipts_root, rest)
  else if tag = 1 then do
    let (gas_price, rest) ← readWord rest
    let (gas_limit, rest) ← readWord rest
    let (maturity, rest) ← readWord rest
    let (bytecode_length, rest) ← readWord rest
    let (bytecode_witness_index, rest) ← readU8 rest
    let (storage_slots_len, rest) ← readWord rest
    let (inputs_len, rest) ← readWord rest
    let (outputs_len, rest) ← readWord rest
    let (witnesses_len, rest) ← readWord rest
    let (salt, rest) ← readBytes 32 rest
    let (storage_slots, rest) ← decodeMany decodeStorageSlot storage_slots_len rest
    let (inputs, rest) ← decodeMany Input.decodeBytes inputs_len rest
    let (outputs, rest) ← decodeMany decodeOutput outputs_len rest
    let (witnesses, rest) ← decodeMany decodeWitness witnesses_len rest
    .ok (.Create gas_price gas_limit maturity bytecode_length
      bytecode_witness_index storage_slots inputs outputs witnesses salt, rest)
  else if tag = 2 then do
    let (outputs_len, rest) ← readWord rest
    let (outputs, rest) ← decodeMany decodeOutput outputs_len rest
    .ok (.Mint outputs, rest)
  else
    .error .UnknownDiscriminant

/-! ## Well-formedness

A value is well-formed when every machine-typed field is in range and every
fixed-width byte array has its width — the conditions every value built from
actual Rust data satisfies by construction — and, for the predicate input
variants, when the predicate is non-empty.  The conversion
`InputSpec -> Input` keys the signed/predicate distinction on predicate
emptiness, and validation rejects empty predicates (`InputPredicateEmpty`),
so an `Input::CoinPredicate`/`MessagePredicate` with an empty predicate is
not a valid transaction component.
-/

/-- Well-formed `UtxoId`. -/
def UtxoId.wf (u : UtxoId) : Bool :=
  decide (u.tx_id.length = 32 ∧ u.output_index < 256)

/-- Well-formed `TxPointer`. -/
def TxPointer.wf (p : TxPointer) : Bool :=
  decide (p.block_height < 2 ^ 32 ∧ p.tx_index < 2 ^ 16)

/-- Well-formed `StorageSlot`. -/
def StorageSlot.wf (slot : StorageSlot) : Bool :=
  decide (slot.key.length = 32 ∧ slot.value.length = 32)

/-- Well-formed `Input`. -/
def Input.wf : Input → Bool
  | .CoinSigned utxo_id owner amount asset_id tx_pointer witness_index maturity =>
      decide (utxo_id.wf ∧ owner.length = 32 ∧ amount < wordModulus ∧ asset_id.length = 32
        ∧ tx_pointer.wf ∧ witness_index < 256 ∧ maturity < wordModulus)
  | .CoinPredicate utxo_id owner amount asset_id tx_pointer maturity predicate predicate_data =>
      decide (utxo_id.wf ∧ owner.length = 32 ∧ amount < wordModulus ∧ asset_id.length = 32
        ∧ tx_pointer.wf ∧ maturity < wordModulus ∧ predicate ≠ []
        ∧ predicate.length < wordModulus ∧ predicate_data.length < wordModulus)
  | .Contract utxo_id balance_root state_root tx_pointer contract_id =>
      decide (utxo_id.wf ∧ balance_root.length = 32 ∧ state_root.length = 32
        ∧ tx_pointer.wf ∧ contract_id.length = 32)
  | .MessageSigned message_id sender recipient amount nonce witness_index data =>
      decide (message_id.length = 32 ∧ sender.length = 32 ∧ recipient.length = 32
        ∧ amount < wordModulus ∧ nonce < wordModulus ∧ witness_index < 256
        ∧ data.length < wordModulus)
  | .MessagePredicate message_id sender recipient amount nonce data predicate predicate_data =>
      decide (message_id.length = 32 ∧ sender.length = 32 ∧ recipient.length = 32
        ∧ amount < wordModulus ∧ nonce < wordModulus ∧ data.length < wordModulus
        ∧ predicate ≠ [] ∧ predicate.length < wordModulus
        ∧ predicate_data.length < wordModulus)

/-- Well-formed `Output`. -/
def Output.wf : Output → Bool
  | .Coin toAddress amount asset_id =>
      decide (toAddress.length = 32 ∧ amount < wordModulus ∧ asset_id.length = 32)
  | .Contract input_index balance_root state_root =>
      decide (input_index < 256 ∧ balance_root.length = 32 ∧ state_root.length = 32)
  | .Message recipient amount =>
      decide (recipient.length = 32 ∧ amount < wordModulus)
  | .Change toAddress amount asset_id =>
      decide (toAddress.length = 32 ∧ amount < wordModulus ∧ asset_id.length = 32)
  | .Variable toAddress amount asset_id =>
      decide (toAddress.length = 32 ∧ amount < wordModulus ∧ asset_id.length = 32)
  | .ContractCreated contract_id state_root =>
      decide (contract_id.length = 32 ∧ state_root.length = 32)

/-- Well-formed `Witness`. -/
def Witness.wf (w : Witness) : Bool :=
  decide (w.data.length < wordModulus)

/-- Well-formed (valid) `Transaction`. -/
def Transaction.wf : Transaction → Bool
  | .Script gas_price gas_limit maturity script script_data inputs outputs
      witnesses receipts_root =>
      decide (gas_price < wordModulus ∧ gas_limit < wordModulus ∧ maturity < wordModulus
        ∧ script.length < wordModulus ∧ script_data.length < wordModulus
        ∧ inputs.length < wordModulus ∧ outputs.length < wordModulus
        ∧ witnesses.length < wordModulus ∧ receipts_root.length = 32
        ∧ (∀ i ∈ inputs, i.wf = true) ∧ (∀ o ∈ outputs, o.wf = true)
        ∧ (∀ w ∈ witnesses, Witness.wf w = true))
  | .Create gas_price gas_limit maturity bytecode_length bytecode_witness_index
      storage_slots inputs outputs witnesses salt =>
      decide (gas_price < wordModulus ∧ gas_limit < wordModulus ∧ maturity < wordModulus
        ∧ bytecode_length < wordModulus ∧ bytecode_witness_index < 256
        ∧ storage_slots.length < wordModulus ∧ inputs.length < wordModulus
        ∧ outputs.length < wordModulus ∧ witnesses.length < wordModulus
        ∧ salt.length = 32 ∧ (∀ s ∈ storage_slots, s.wf = true)
        ∧ (∀ i ∈ inputs, i.wf = true) ∧ (∀ o ∈ outputs, o.wf = true)
        ∧ (∀ w ∈ witnesses, Witness.wf w = true))
  | .Mint outputs =>
      decide (outputs.length < wordModulus ∧ (∀ o ∈ outputs, o.wf = true))

/-! ## Serialized sizes and offsets

The `INPUT_*`/`OUTPUT_*`/`TRANSACTION_*` fixed-size constants live in the
`consts` modules, which are not among the provided sources; their values are
forced by the wire layout above (`size_lemmas` below prove each encoder
produces exactly these sizes), matching the formulas of
`Input::serialized_size`, `Output::serialized_size` and the offset
arithmetic of `offset.rs`.
-/

/-- Fixed part of a coin input's serialized form. -/
def INPUT_COIN_FIXED_SIZE : Nat := 168

/-- Serialized size of a contract input. -/
def INPUT_CONTRACT_SIZE : Nat := 160

/-- Fixed part of a message input's serialized form. -/
def INPUT_MESSAGE_FIXED_SIZE : Nat := 152

/-- `Input::serialized_size` from `input.rs`. -/
def Input.serialized_size : Input → Nat
  | .CoinSigned .. => INPUT_COIN_FIXED_SIZE
  | .CoinPredicate _ _ _ _ _ _ predicate predicate_data =>
      INPUT_COIN_FIXED_SIZE + padded_len predicate + padded_len predicate_data
  | .Contract .. => INPUT_CONTRACT_SIZE
  | .MessageSigned _ _ _ _ _ _ data => INPUT_MESSAGE_FIXED_SIZE + padded_len data
  | .MessagePredicate _ _ _ _ _ data predicate predicate_data =>
      INPUT_MESSAGE_FIXED_SIZE + padded_len data + padded_len predicate
        + padded_len predicate_data

/-- Serialized size of coin-like outputs (`Coin`/`Change`/`Variable`). -/
def OUTPUT_CCV_SIZE : Nat := 80

/-- Serialized size of a contract output. -/
def OUTPUT_CONTRACT_SIZE : Nat := 80

/-- Serialized size of a message output. -/
def OUTPUT_MESSAGE_SIZE : Nat := 48

/-- Serialized size of a contract-created output. -/
def OUTPUT_CONTRACT_CREATED_SIZE : Nat := 72

/-- `Output::serialized_size` from `output.rs`. -/
def Output.serialized_size : Output → Nat
  | .Coin .. => OUTPUT_CCV_SIZE
  | .Change .. => OUTPUT_CCV_SIZE
  | .Variable .. => OUTPUT_CCV_SIZE
  | .Message .. => OUTPUT_MESSAGE_SIZE
  | .Contract .. => OUTPUT_CONTRACT_SIZE
  | .ContractCreated .. => OUTPUT_CONTRACT_CREATED_SIZE

/-- A witness serializes as its length word plus the padded payload. -/
def Witness.serialized_size (w : Witness) : Nat :=
  8 + padded_len w.data

/-- `StorageSlot::SLOT_SIZE` from `storage.rs`. -/
def SLOT_SIZE : Nat := 64

/-- Fixed (static) part of a serialized `Script` transaction, discriminant
word included. -/
def TRANSACTION_SCRIPT_FIXED_SIZE : Nat := 104

/-- Fixed (static) part of a serialized `Create` transaction, discriminant
word included. -/
def TRANSACTION_CREATE_FIXED_SIZE : Nat := 112

/-- `TransactionError` from the transaction module (field accessors on a
variant that lacks the field). -/
inductive TransactionError where
  | FieldDoesNotExist
deriving DecidableEq

/-- `Transaction::inputs` as a fallible accessor: `Mint` owns no inputs. -/
def Transaction.inputsE : Transaction → Except TransactionError (List Input)
  | .Script _ _ _ _ _ inputs _ _ _ => .ok inputs
  | .Create _ _ _ _ _ _ inputs _ _ _ => .ok inputs
  | .Mint _ => .error .FieldDoesNotExist

/-- `Transaction::inputs_offset` from `offset.rs`. -/
def Transaction.inputs_offset : Transaction → Except TransactionError Nat
  | .Script _ _ _ script script_data _ _ _ _ =>
      .ok (TRANSACTION_SCRIPT_FIXED_SIZE + padded_len script + padded_len script_data)
  | .Create _ _ _ _ _ storage_slots _ _ _ _ =>
      .ok (TRANSACTION_CREATE_FIXED_SIZE + SLOT_SIZE * storage_slots.length)
  | .Mint _ => .error .FieldDoesNotExist

/-- `Transaction::_input_offset` from `offset.rs`: the inputs' base offset
plus the serialized sizes of the preceding inputs. -/
def Transaction.sub_input_offset (tx : Transaction) (index : Nat) : Option Nat :=
  match tx.inputs_offset, tx.inputsE with
  | .ok offset, .ok inputs =>
      (inputs.get? index).map fun _ =>
        ((inputs.take index).map Input.serialized_size).sum + offset
  | _, _ => none

/-- `Transaction::input_offset` from `offset.rs`; the metadata cache slot is
the placeholder `Option<()>` and is never populated, so this is always the
fresh computation. -/
def Transaction.input_offset (tx : Transaction) (index : Nat) : Option Nat :=
  tx.sub_input_offset index

/-! ## `UtxoId` textual form (`utxo_id.rs`)

Strings are byte lists (`str::as_bytes`); `48`/`120` are `'0'`/`'x'`.
-/

/-- A lowercase hex digit character (as a byte) for a value below 16. -/
def hexDigitLower (n : Nat) : Nat :=
  if n < 10 then 48 + n else 87 + n

/-- The two lowercase hex characters of a byte (`{:02x}`). -/
def byteToHex (b : Nat) : List Nat :=
  [hexDigitLower (b / 16), hexDigitLower (b % 16)]

/-- Lowercase hex characters of a byte string. -/
def bytesToHexLower (l : List Nat) : List Nat :=
  (l.map byteToHex).flatten

/-- The `LowerHex` form of a `UtxoId` (non-alternate): `0x`, the 64 hex
characters of `tx_id`, then the two hex characters of `output_index`. -/
def UtxoId.lowerHex (u : UtxoId) : List Nat :=
  48 :: 120 :: (bytesToHexLower u.tx_id ++ byteToHex u.output_index)

/-- `hex_val` from `utxo_id.rs`: the value of one hex character. -/
def hex_val (c : Nat) : Option Nat :=
  if 65 ≤ c ∧ c ≤ 70 then some (c - 65 + 10)
  else if 97 ≤ c ∧ c ≤ 102 then some (c - 97 + 10)
  else if 48 ≤ c ∧ c ≤ 57 then some (c - 48)
  else none

/-- Parse `k` bytes as consecutive pairs of hex characters; characters after
the `2 * k` consumed ones are ignored. -/
def parseHexBytes : Nat → List Nat → Option (List Nat)
  | 0, _ => some []
  | k + 1, c1 :: c2 :: rest => do
      let hi ← hex_val c1
      let lo ← hex_val c2
      let bs ← parseHexBytes k rest
      some ((hi * 16 + lo) :: bs)
  | _ + 1, [] => none
  | _ + 1, [_] => none

/--
Modelled from the spec: `Bytes32::from_str` lives in the external
`fuel-types` crate.  It strips an optional `0x`, then fills the 32 bytes
from consecutive hex-character pairs, failing on a non-hex character or if
fewer than 64 remain, and ignoring any extra trailing characters (the
behaviour `utxo_id.rs`'s own `from_str` test relies on, since it hands this
function a 65-character slice).
-/
def bytes32_from_str (s : List Nat) : Option (List Nat) :=
  let s1 := if s.take 2 = [48, 120] then s.drop 2 else s
  parseHexBytes 32 s1

/-- `UtxoId::from_str` from `utxo_id.rs`: after stripping `0x`, all but the
last character feed `Bytes32::from_str`, and the `output_index` is the value
of the single last hex character. -/
def UtxoId.from_str (s : List Nat) : Option UtxoId :=
  let alternate := s.take 2 = [48, 120]
  let s1 := if alternate then s.drop 2 else s
  if s1.length = 0 then some ⟨List.replicate 32 0, 0⟩
  else do
    let tx_id ← bytes32_from_str (s1.take (s1.length - 1))
    let output_index ← s1.getLast?.bind hex_val
    some ⟨tx_id, output_index⟩

/-! ## Concrete fixtures for witnesses and counterexamples -/

/-- Permissive consensus parameters for concrete checks. -/
def testParams : ConsensusParameters :=
  { max_inputs := 8
    max_outputs := 8
    max_witnesses := 8
    max_gas_per_tx := 100000
    max_script_length := 10000
    max_script_data_length := 10000
    max_storage_slots := 255
    contract_max_size := 10000
    max_predicate_length := 10000
    max_predicate_data_length := 10000
    max_message_data_length := 10000
    gas_per_byte := 0
    gas_price_factor := 1 }

/-- Parameters exhibiting the 64-bit-checked multiplication overflow: the
product `gas_per_byte * metered_bytes` can exceed `u64` while the widened
128-bit computation stays representable. -/
def wideParams : ConsensusParameters :=
  { testParams with gas_per_byte := 2 ^ 32, gas_price_factor := 2 ^ 32 }

/-- Parameters with `gas_per_byte = 1` and a unit price factor. -/
def unitParams : ConsensusParameters :=
  { testParams with gas_per_byte := 1, gas_price_factor := 1 }

/-- An all-zero 32-byte string. -/
def zero32 : List Nat := List.replicate 32 0

/-- A shared `UtxoId` used by the duplicate-input examples. -/
def utxoA : UtxoId := ⟨zero32, 0⟩

/-- A `Create` transaction with no `ContractCreated` output at all: one empty
witness serves as bytecode witness, everything else is empty. -/
def createNoContractCreated : Transaction :=
  .Create 0 0 0 0 0 [] [] [] [[]] zero32

/-- Two contract inputs sharing `utxoA` but with distinct contract ids, each
paired with its required contract output. -/
def dupContractUtxoTx : Transaction :=
  .Script 0 0 0 [] []
    [ .Contract utxoA zero32 zero32 ⟨0, 0⟩ (List.replicate 32 1)
    , .Contract utxoA zero32 zero32 ⟨0, 0⟩ (List.replicate 32 2) ]
    [ .Contract 0 zero32 zero32
    , .Contract 1 zero32 zero32 ]
    [] zero32

/-- Two signed coin inputs sharing `utxoA`. -/
def dupCoinUtxoTx : Transaction :=
  .Script 0 0 0 [] []
    [ .CoinSigned utxoA zero32 50 zero32 ⟨0, 0⟩ 0 0
    , .CoinSigned ⟨zero32, 0⟩ zero32 70 zero32 ⟨0, 0⟩ 0 0 ]
    [] [[], []] zero32

/-- A script transaction with one contract input/output pair, used to
instantiate validation theorems at a transaction that validates. -/
def contractPairTx : Transaction :=
  .Script 0 0 0 [] []
    [ .Contract utxoA zero32 zero32 ⟨0, 0⟩ (List.replicate 32 3) ]
    [ .Contract 0 zero32 zero32 ]
    [] zero32

/-- A small well-formed script transaction exercising every section of the
wire layout: script bytes, script data, one input, one output, one witness. -/
def sampleScriptTx : Transaction :=
  .Script 1 2 3 [7, 8, 9] [4]
    [ .CoinSigned ⟨List.replicate 32 5, 10⟩ (List.replicate 32 6) 1000
        (List.replicate 32 0) ⟨17, 19⟩ 0 0 ]
    [ .Coin (List.replicate 32 11) 999 (List.replicate 32 0) ]
    [[13, 14]]
    (List.replicate 32 12)

/-- A small well-formed create transaction with a storage slot, a predicate
input and a change output. -/
def sampleCreateTx : Transaction :=
  .Create 1 2 3 0 0
    [ ⟨List.replicate 32 1, List.replicate 32 2⟩ ]
    [ .CoinPredicate ⟨List.replicate 32 5, 10⟩ (List.replicate 32 6) 1000
        (List.replicate 32 0) ⟨17, 19⟩ 0 [1, 2, 3] [4, 5] ]
    [ .Change (List.replicate 32 11) 0 (List.replicate 32 0) ]
    [[]]
    (List.replicate 32 15)

/-- The `UtxoId` with zero transaction id and output index 16 (`0x10`), on
which the textual round trip breaks. -/
def utxoIndex16 : UtxoId := ⟨zero32, 16⟩

/-- Parameters with `gas_per_byte = 2` and a unit price factor. -/
def twoParams : ConsensusParameters :=
  { testParams with gas_per_byte := 2, gas_price_factor := 1 }

/-- `Output::is_coin` from `output.rs`. -/
def Output.is_coin : Output → Bool
  | .Coin .. => true
  | _ => false

/-- `Output::is_contract` from `output.rs`. -/
def Output.is_contract : Output → Bool
  | .Contract .. => true
  | _ => false

/-- `Output::is_variable` from `output.rs`. -/
def Output.is_variable : Output → Bool
  | .Variable .. => true
  | _ => false

/-- `Output::is_contract_created` from `output.rs`. -/
def Output.is_contract_created : Output → Bool
  | .ContractCreated .. => true
  | _ => false

/-- `Input::is_contract` from `input.rs`. -/
def Input.is_contract : Input → Bool
  | .Contract .. => true
  | _ => false

/-- `Transaction::is_create`. -/
def Transaction.is_create : Transaction → Bool
  | .Create .. => true
  | _ => false

/-- The asset ids of the `Coin` outputs of a `Mint` transaction, in order. -/
def mintAssets (outputs : List Output) : List (List Nat) :=
  outputs.filterMap fun output =>
    match output with
    | .Coin _ _ asset_id => some asset_id
    | _ => none

/-- Well-formed `InputSpec` (ranges and widths of every field). -/
def InputSpec.wf : InputSpec → Bool
  | .Coin utxo_id owner amount asset_id tx_pointer witness_index maturity
      predicate predicate_data =>
      decide (utxo_id.wf ∧ owner.length = 32 ∧ amount < wordModulus
        ∧ asset_id.length = 32 ∧ tx_pointer.wf ∧ witness_index < 256
        ∧ maturity < wordModulus ∧ predicate.length < wordModulus
        ∧ predicate_data.length < wordModulus)
  | .Contract utxo_id balance_root state_root tx_pointer contract_id =>
      decide (utxo_id.wf ∧ balance_root.length = 32 ∧ state_root.length = 32
        ∧ tx_pointer.wf ∧ contract_id.length = 32)
  | .Message message_id sender recipient amount nonce witness_index data
      predicate predicate_data =>
      decide (message_id.length = 32 ∧ sender.length = 32 ∧ recipient.length = 32
        ∧ amount < wordModulus ∧ nonce < wordModulus ∧ witness_index < 256
        ∧ data.length < wordModulus ∧ predicate.length < wordModulus
        ∧ predicate_data.length < wordModulus)

/-! ## Primitive codec lemmas -/

/-- `Except.ok` feeds binds directly. -/
@[simp] theorem except_bind_ok {ε α β : Type} (a : α) (f : α → Except ε β) :
    (Except.ok a : Except ε α) >>= f = f a := rfl

/-- `Except.error` short-circuits binds. -/
@[simp] theorem except_bind_error {ε α β : Type} (e : ε) (f : α → Except ε β) :
    (Except.error e : Except ε α) >>= f = .error e := rfl

/-- A fixed-width big-endian encoding has its width. -/
@[simp] theorem toBytesBE_length (k n : Nat) : (toBytesBE k n).length = k := by
  induction k generalizing n with
  | zero => rfl
  | succ k ih => simp [toBytesBE, ih]

/-- A word is eight bytes. -/
@[simp] theorem word64_length (n : Nat) : (word64 n).length = 8 := by
  simp [word64]

/-- An encoded `u8` is eight bytes. -/
@[simp] theorem u8enc_length (n : Nat) : (u8enc n).length = 8 := by
  simp [u8enc]

/-- An encoded `u16` is eight bytes. -/
@[simp] theorem u16enc_length (n : Nat) : (u16enc n).length = 8 := by
  simp [u16enc]

/-- An encoded `u32` is eight bytes. -/
@[simp] theorem u32enc_length (n : Nat) : (u32enc n).length = 8 := by
  simp [u32enc]

/-- A byte vector's dynamic payload has the padded length. -/
@[simp] theorem vecPayload_length (l : List Nat) :
    (vecPayload l).length = padded_len l := by
  simp [vecPayload, padded_len]

/-- Folding big-endian digits after an append. -/
theorem fromBytesBE_append (l r : List Nat) :
    fromBytesBE (l ++ r) = r.foldl (fun acc b => acc * 256 + b) (fromBytesBE l) := by
  simp [fromBytesBE, List.foldl_append]

/-- Decoding the big-endian bytes of `n` recovers `n` modulo the width. -/
theorem fromBytesBE_toBytesBE (k n : Nat) :
    fromBytesBE (toBytesBE k n) = n % 256 ^ k := by
  induction k generalizing n with
  | zero => simp [toBytesBE, fromBytesBE, Nat.mod_one]
  | succ k ih =>
      have h1 : fromBytesBE (toBytesBE k (n / 256) ++ [n % 256])
          = fromBytesBE (toBytesBE k (n / 256)) * 256 + n % 256 := by
        simp [fromBytesBE_append, fromBytesBE]
      have h2 : (256 : Nat) ^ (k + 1) = 256 * 256 ^ k := by
        rw [pow_succ, Nat.mul_comm]
      calc fromBytesBE (toBytesBE (k + 1) n)
          = fromBytesBE (toBytesBE k (n / 256)) * 256 + n % 256 := by
            simpa [toBytesBE] using h1
        _ = (n / 256 % 256 ^ k) * 256 + n % 256 := by rw [ih]
        _ = n % 256 ^ (k + 1) := by
            rw [h2, Nat.mod_mul]
            ring

/-- Reading exactly the bytes of a prefix returns that prefix. -/
theorem readBytes_exact {k : Nat} {l : List Nat} (r : List Nat)
    (h : l.length = k) : readBytes k (l ++ r) = .ok (l, r) := by
  subst h
  simp [readBytes, List.take_left, List.drop_left]

/-- Skipping exactly the bytes of a prefix drops that prefix. -/
theorem skipBytes_exact {k : Nat} {l : List Nat} (r : List Nat)
    (h : l.length = k) : skipBytes k (l ++ r) = .ok r := by
  subst h
  simp [skipBytes, List.drop_left]

/-- A word round-trips in front of any remainder. -/
theorem readWord_word64 {n : Nat} (r : List Nat) (h : n < wordModulus) :
    readWord (word64 n ++ r) = .ok (n, r) := by
  have hl : (word64 n).length = 8 := word64_length n
  have : fromBytesBE (word64 n) = n := by
    rw [word64, fromBytesBE_toBytesBE]
    exact Nat.mod_eq_of_lt (by
      have : (256 : Nat) ^ 8 = wordModulus := by norm_num [wordModulus]
      omega)
  simp [readWord, readBytes_exact r hl, this]

/-- A `u8` round-trips in front of any remainder. -/
theorem readU8_u8enc {n : Nat} (r : List Nat) (h : n < 256) :
    readU8 (u8enc n ++ r) = .ok (n, r) := by
  have h1 : readBytes 1 (u8enc n ++ r) = .ok ([n % 256], List.replicate 7 0 ++ r) := by
    have : u8enc n ++ r = [n % 256] ++ (List.replicate 7 0 ++ r) := by
      simp [u8enc]
    rw [this]
    exact readBytes_exact _ rfl
  have h2 : skipBytes 7 (List.replicate 7 0 ++ r) = .ok r :=
    skipBytes_exact r (by simp)
  simp [readU8, h1, fromBytesBE, Nat.mod_eq_of_lt h, skipBytes]

/-- A `u16` round-trips in front of any remainder. -/
theorem readU16_u16enc {n : Nat} (r : List Nat) (h : n < 2 ^ 16) :
    readU16 (u16enc n ++ r) = .ok (n, r) := by
  have h1 : readBytes 2 (u16enc n ++ r)
      = .ok (toBytesBE 2 n, List.replicate 6 0 ++ r) := by
    have : u16enc n ++ r = toBytesBE 2 n ++ (List.replicate 6 0 ++ r) := by
      simp [u16enc]
    rw [this]
    exact readBytes_exact _ (toBytesBE_length 2 n)
  have h2 : skipBytes 6 (List.replicate 6 0 ++ r) = .ok r :=
    skipBytes_exact r (by simp)
  have h3 : fromBytesBE (toBytesBE 2 n) = n := by
    rw [fromBytesBE_toBytesBE]
    exact Nat.mod_eq_of_lt (by norm_num at h ⊢; omega)
  simp [readU16, h1, h3, skipBytes]

/-- A `u32` round-trips in front of any remainder. -/
theorem readU32_u32enc {n : Nat} (r : List Nat) (h : n < 2 ^ 32) :
    readU32 (u32enc n ++ r) = .ok (n, r) := by
  have h1 : readBytes 4 (u32enc n ++ r)
      = .ok (toBytesBE 4 n, List.replicate 4 0 ++ r) := by
    have : u32enc n ++ r = toBytesBE 4 n ++ (List.replicate 4 0 ++ r) := by
      simp [u32enc]
    rw [this]
    exact readBytes_exact _ (toBytesBE_length 4 n)
  have h2 : skipBytes 4 (List.replicate 4 0 ++ r) = .ok r :=
    skipBytes_exact r (by simp)
  have h3 : fromBytesBE (toBytesBE 4 n) = n := by
    rw [fromBytesBE_toBytesBE]
    exact Nat.mod_eq_of_lt (by norm_num at h ⊢; omega)
  simp [readU32, h1, h3, skipBytes]

/-- A padded byte-vector payload round-trips in front of any remainder. -/
theorem readVarBytes_payload (l r : List Nat) :
    readVarBytes l.length (vecPayload l ++ r) = .ok (l, r) := by
  have h1 : readBytes l.length (vecPayload l ++ r)
      = .ok (l, List.replicate (fill_bytes l.length) 0 ++ r) := by
    have : vecPayload l ++ r = l ++ (List.replicate (fill_bytes l.length) 0 ++ r) := by
      simp [vecPayload]
    rw [this]
    exact readBytes_exact _ rfl
  have h2 : skipBytes (fill_bytes l.length) (List.replicate (fill_bytes l.length) 0 ++ r)
      = .ok r := skipBytes_exact r (by simp)
  simp [readVarBytes, h1, h2]

/-- A `UtxoId` round-trips in front of any remainder. -/
theorem decodeUtxoId_enc {u : UtxoId} (r : List Nat) (h : u.wf = true) :
    decodeUtxoId (u.encodeBytes ++ r) = .ok (u, r) := by
  rw [UtxoId.wf, decide_eq_true_eq] at h
  obtain ⟨h1, h2⟩ := h
  have hb : readBytes 32 (u.tx_id ++ (u8enc u.output_index ++ r))
      = .ok (u.tx_id, u8enc u.output_index ++ r) := readBytes_exact _ h1
  simp [decodeUtxoId, UtxoId.encodeBytes, hb, readU8_u8enc r h2]

/-- A `TxPointer` round-trips in front of any remainder. -/
theorem decodeTxPointer_enc {p : TxPointer} (r : List Nat) (h : p.wf = true) :
    decodeTxPointer (p.encodeBytes ++ r) = .ok (p, r) := by
  rw [TxPointer.wf, decide_eq_true_eq] at h
  obtain ⟨h1, h2⟩ := h
  simp [decodeTxPointer, TxPointer.encodeBytes, readU32_u32enc _ h1, readU16_u16enc r h2]

/-- A `StorageSlot` round-trips in front of any remainder. -/
theorem decodeStorageSlot_enc {slot : StorageSlot} (r : List Nat)
    (h : slot.wf = true) : decodeStorageSlot (slot.encodeBytes ++ r) = .ok (slot, r) := by
  rw [StorageSlot.wf, decide_eq_true_eq] at h
  obtain ⟨h1, h2⟩ := h
  have hk : readBytes 32 (slot.key ++ (slot.value ++ r))
      = .ok (slot.key, slot.value ++ r) := readBytes_exact _ h1
  simp [decodeStorageSlot, StorageSlot.encodeBytes, hk, readBytes_exact r h2]

/-- A `Witness` round-trips in front of any remainder. -/
theorem decodeWitness_enc {w : Witness} (r : List Nat) (h : Witness.wf w = true) :
    decodeWitness (Witness.encodeBytes w ++ r) = .ok (w, r) := by
  rw [Witness.wf, decide_eq_true_eq] at h
  have h1 : readWord (word64 (List.length w) ++ (vecPayload w ++ r))
      = .ok (List.length w, vecPayload w ++ r) :=
    readWord_word64 _ h
  simp [decodeWitness, Witness.encodeBytes, Witness.data, h1, readVarBytes_payload]

/-- The tag words used by the embedded layouts are below the word modulus. -/
theorem tag0_lt : (0 : Nat) < wordModulus := by norm_num [wordModulus]

/-- Tag `1` is below the word modulus. -/
theorem tag1_lt : (1 : Nat) < wordModulus := by norm_num [wordModulus]

/-- Tag `2` is below the word modulus. -/
theorem tag2_lt : (2 : Nat) < wordModulus := by norm_num [wordModulus]

/-- Tag `3` is below the word modulus. -/
theorem tag3_lt : (3 : Nat) < wordModulus := by norm_num [wordModulus]

/-- Tag `4` is below the word modulus. -/
theorem tag4_lt : (4 : Nat) < wordModulus := by norm_num [wordModulus]

/-- Tag `5` is below the word modulus. -/
theorem tag5_lt : (5 : Nat) < wordModulus := by norm_num [wordModulus]

/-- An `InputSpec` round-trips in front of any remainder. -/
theorem decodeInputSpec_enc {sp : InputSpec} (r : List Nat) (h : sp.wf = true) :
    decodeInputSpec (sp.encodeBytes ++ r) = .ok (sp, r) := by
  cases sp with
  | Coin utxo_id owner amount asset_id tx_pointer witness_index maturity
      predicate predicate_data =>
      rw [InputSpec.wf, decide_eq_true_eq] at h
      obtain ⟨hu, ho, ha, haid, htp, hwi, hm, hp, hpd⟩ := h
      simp only [InputSpec.encodeBytes, List.append_assoc]
      simp [decodeInputSpec, readWord_word64, decodeUtxoId_enc, readBytes_exact,
        readU8_u8enc, decodeTxPointer_enc, readVarBytes_payload, hu, ho, ha,
        haid, htp, hwi, hm, hp, hpd, tag0_lt]
  | Contract utxo_id balance_root state_root tx_pointer contract_id =>
      rw [InputSpec.wf, decide_eq_true_eq] at h
      obtain ⟨hu, hb, hs, htp, hc⟩ := h
      simp only [InputSpec.encodeBytes, List.append_assoc]
      simp [decodeInputSpec, readWord_word64, decodeUtxoId_enc, readBytes_exact,
        decodeTxPointer_enc, hu, hb, hs, htp, hc, tag1_lt]
  | Message message_id sender recipient amount nonce witness_index data
      predicate predicate_data =>
      rw [InputSpec.wf, decide_eq_true_eq] at h
      obtain ⟨hm, hs, hr, ha, hn, hw, hd, hp, hpd⟩ := h
      simp only [InputSpec.encodeBytes, List.append_assoc]
      simp [decodeInputSpec, readWord_word64, readBytes_exact, readU8_u8enc,
        readVarBytes_payload, hm, hs, hr, ha, hn, hw, hd, hp, hpd, tag2_lt]

/-- A well-formed input survives the `InputSpec` conversion. -/
theorem wf_ofInput {i : Input} (h : i.wf = true) :
    (InputSpec.ofInput i).wf = true := by
  cases i <;>
    (rw [Input.wf, decide_eq_true_eq] at h
     rw [InputSpec.ofInput, InputSpec.wf, decide_eq_true_eq]
     simp_all [wordModulus])

/-- Converting a well-formed input to its wire layout and back is the
identity: the signed/predicate distinction is recovered from predicate
emptiness, which well-formedness pins down. -/
theorem ofInputSpec_ofInput {i : Input} (h : i.wf = true) :
    Input.ofInputSpec (InputSpec.ofInput i) = i := by
  cases i with
  | CoinSigned utxo_id owner amount asset_id tx_pointer witness_index maturity =>
      simp [InputSpec.ofInput, Input.ofInputSpec]
  | CoinPredicate utxo_id owner amount asset_id tx_pointer maturity predicate predicate_data =>
      rw [Input.wf, decide_eq_true_eq] at h
      have hp : predicate ≠ [] := h.2.2.2.2.2.2.1
      simp [InputSpec.ofInput, Input.ofInputSpec, hp]
  | Contract utxo_id balance_root state_root tx_pointer contract_id =>
      simp [InputSpec.ofInput, Input.ofInputSpec]
  | MessageSigned message_id sender recipient amount nonce witness_index data =>
      simp [InputSpec.ofInput, Input.ofInputSpec]
  | MessagePredicate message_id sender recipient amount nonce data predicate predicate_data =>
      rw [Input.wf, decide_eq_true_eq] at h
      have hp : predicate ≠ [] := h.2.2.2.2.2.2.1
      simp [InputSpec.ofInput, Input.ofInputSpec, hp]

/-- A well-formed `Input` round-trips in front of any remainder. -/
theorem decodeInput_enc {i : Input} (r : List Nat) (h : i.wf = true) :
    Input.decodeBytes (i.encodeBytes ++ r) = .ok (i, r) := by
  have hs : (InputSpec.ofInput i).wf = true := wf_ofInput h
  have hb : Input.ofInputSpec (InputSpec.ofInput i) = i := ofInputSpec_ofInput h
  simp [Input.decodeBytes, Input.encodeBytes, decodeInputSpec_enc r hs, hb]

/-- A well-formed `Output` round-trips in front of any remainder. -/
theorem decodeOutput_enc {o : Output} (r : List Nat) (h : o.wf = true) :
    decodeOutput (o.encodeBytes ++ r) = .ok (o, r) := by
  cases o with
  | Coin toAddress amount asset_id =>
      rw [Output.wf, decide_eq_true_eq] at h
      obtain ⟨h1, h2, h3⟩ := h
      simp only [Output.encodeBytes, List.append_assoc]
      simp [decodeOutput, readWord_word64, readBytes_exact, h1, h2, h3, tag0_lt]
  | Contract input_index balance_root state_root =>
      rw [Output.wf, decide_eq_true_eq] at h
      obtain ⟨h1, h2, h3⟩ := h
      simp only [Output.encodeBytes, List.append_assoc]
      simp [decodeOutput, readWord_word64, readBytes_exact, readU8_u8enc, h1, h2,
        h3, tag1_lt]
  | Message recipient amount =>
      rw [Output.wf, decide_eq_true_eq] at h
      obtain ⟨h1, h2⟩ := h
      simp only [Output.encodeBytes, List.append_assoc]
      simp [decodeOutput, readWord_word64, readBytes_exact, h1, h2, tag2_lt]
  | Change toAddress amount asset_id =>
      rw [Output.wf, decide_eq_true_eq] at h
      obtain ⟨h1, h2, h3⟩ := h
      simp only [Output.encodeBytes, List.append_assoc]
      simp [decodeOutput, readWord_word64, readBytes_exact, h1, h2, h3, tag3_lt]
  | Variable toAddress amount asset_id =>
      rw [Output.wf, decide_eq_true_eq] at h
      obtain ⟨h1, h2, h3⟩ := h
      simp only [Output.encodeBytes, List.append_assoc]
      simp [decodeOutput, readWord_word64, readBytes_exact, h1, h2, h3, tag4_lt]
  | ContractCreated contract_id state_root =>
      rw [Output.wf, decide_eq_true_eq] at h
      obtain ⟨h1, h2⟩ := h
      simp only [Output.encodeBytes, List.append_assoc]
      simp [decodeOutput, readWord_word64, readBytes_exact, h1, h2, tag5_lt]

/-- A homogeneously encoded list round-trips element by element. -/
theorem decodeMany_encode {α : Type} {enc : α → List Nat}
    {dec : List Nat → Except CodecError (α × List Nat)} (l : List α)
    (hdec : ∀ x ∈ l, ∀ r, dec (enc x ++ r) = .ok (x, r)) (r : List Nat) :
    decodeMany dec l.length ((l.map enc).flatten ++ r) = .ok (l, r) := by
  induction l with
  | nil => simp [decodeMany]
  | cons a t ih =>
      have ha : ∀ r, dec (enc a ++ r) = .ok (a, r) := hdec a (by simp)
      have ht : ∀ x ∈ t, ∀ r, dec (enc x ++ r) = .ok (x, r) :=
        fun x hx => hdec x (by simp [hx])
      simp [decodeMany, List.append_assoc, ha, ih ht]

/-- A well-formed transaction's encoding decodes back to it in front of any
remainder. -/
theorem decodeBytes_encodeBytes {t : Transaction} (r : List Nat)
    (h : t.wf = true) :
    Transaction.decodeBytes (t.encodeBytes ++ r) = .ok (t, r) := by
  cases t with
  | Script gas_price gas_limit maturity script script_data inputs outputs
      witnesses receipts_root =>
      rw [Transaction.wf, decide_eq_true_eq] at h
      obtain ⟨h1, h2, h3, h4, h5, h6, h7, h8, h9, hin, hout, hwit⟩ := h
      have din : ∀ x ∈ inputs, ∀ r, Input.decodeBytes (Input.encodeBytes x ++ r)
          = .ok (x, r) := fun x hx r => decodeInput_enc r (hin x hx)
      have dout : ∀ x ∈ outputs, ∀ r, decodeOutput (Output.encodeBytes x ++ r)
          = .ok (x, r) := fun x hx r => decodeOutput_enc r (hout x hx)
      have dwit : ∀ x ∈ witnesses, ∀ r, decodeWitness (Witness.encodeBytes x ++ r)
          = .ok (x, r) := fun x hx r => decodeWitness_enc r (hwit x hx)
      simp only [Transaction.encodeBytes, List.append_assoc]
      simp [Transaction.decodeBytes, readWord_word64, readBytes_exact,
        readVarBytes_payload, h1, h2, h3, h4, h5, h6, h7, h8, h9, tag0_lt]
      rw [decodeMany_encode inputs din]
      simp only [except_bind_ok]
      rw [decodeMany_encode outputs dout]
      simp only [except_bind_ok]
      rw [decodeMany_encode witnesses dwit]
      simp only [except_bind_ok]
  | Create gas_price gas_limit maturity bytecode_length bytecode_witness_index
      storage_slots inputs outputs witnesses salt =>
      rw [Transaction.wf, decide_eq_true_eq] at h
      obtain ⟨h1, h2, h3, h4, h5, h6, h7, h8, h9, h10, hslot, hin, hout, hwit⟩ := h
      have dslot : ∀ x ∈ storage_slots, ∀ r,
          decodeStorageSlot (StorageSlot.encodeBytes x ++ r) = .ok (x, r) :=
        fun x hx r => decodeStorageSlot_enc r (hslot x hx)
      have din : ∀ x ∈ inputs, ∀ r, Input.decodeBytes (Input.encodeBytes x ++ r)
          = .ok (x, r) := fun x hx r => decodeInput_enc r (hin x hx)
      have dout : ∀ x ∈ outputs, ∀ r, decodeOutput (Output.encodeBytes x ++ r)
          = .ok (x, r) := fun x hx r => decodeOutput_enc r (hout x hx)
      have dwit : ∀ x ∈ witnesses, ∀ r, decodeWitness (Witness.encodeBytes x ++ r)
          = .ok (x, r) := fun x hx r => decodeWitness_enc r (hwit x hx)
      simp only [Transaction.encodeBytes, List.append_assoc]
      simp [Transaction.decodeBytes, readWord_word64, readBytes_exact,
        readU8_u8enc, readVarBytes_payload, h1, h2, h3, h4, h5, h6, h7, h8, h9,
        h10, tag1_lt]
      rw [decodeMany_encode storage_slots dslot]
      simp only [except_bind_ok]
      rw [decodeMany_encode inputs din]
      simp only [except_bind_ok]
      rw [decodeMany_encode outputs dout]
      simp only [except_bind_ok]
      rw [decodeMany_encode witnesses dwit]
      simp only [except_bind_ok]
  | Mint outputs =>
      rw [Transaction.wf, decide_eq_true_eq] at h
      obtain ⟨h1, hout⟩ := h
      have dout : ∀ x ∈ outputs, ∀ r, decodeOutput (Output.encodeBytes x ++ r)
          = .ok (x, r) := fun x hx r => decodeOutput_enc r (hout x hx)
      simp only [Transaction.encodeBytes, List.append_assoc]
      simp [Transaction.decodeBytes, readWord_word64, h1, tag2_lt]
      rw [decodeMany_encode outputs dout]
      simp only [except_bind_ok]

/-! ## Size lemmas: each encoder produces exactly `serialized_size` bytes. -/

/-- Padding an empty byte string needs no fill bytes. -/
@[simp] theorem fill_bytes_zero : fill_bytes 0 = 0 := rfl

/-- The empty byte vector has an empty payload. -/
@[simp] theorem vecPayload_nil : vecPayload [] = [] := rfl

/-- The empty byte vector has padded length zero. -/
@[simp] theorem padded_len_nil : padded_len [] = 0 := rfl

/-- A well-formed input's encoding has its `serialized_size`. -/
theorem input_encode_length {i : Input} (h : i.wf = true) :
    i.encodeBytes.length = i.serialized_size := by
  cases i with
  | CoinSigned utxo_id owner amount asset_id tx_pointer witness_index maturity =>
      rw [Input.wf, decide_eq_true_eq] at h
      have hu : utxo_id.tx_id.length = 32 := by
        have := h.1
        rw [UtxoId.wf, decide_eq_true_eq] at this
        exact this.1
      have ho : owner.length = 32 := h.2.1
      have ha : asset_id.length = 32 := h.2.2.2.1
      simp [Input.encodeBytes, InputSpec.ofInput, InputSpec.encodeBytes,
        Input.serialized_size, UtxoId.encodeBytes, TxPointer.encodeBytes,
        INPUT_COIN_FIXED_SIZE, vecPayload, padded_len, fill_bytes, hu, ho, ha]
  | CoinPredicate utxo_id owner amount asset_id tx_pointer maturity predicate predicate_data =>
      rw [Input.wf, decide_eq_true_eq] at h
      have hu : utxo_id.tx_id.length = 32 := by
        have := h.1
        rw [UtxoId.wf, decide_eq_true_eq] at this
        exact this.1
      have ho : owner.length = 32 := h.2.1
      have ha : asset_id.length = 32 := h.2.2.2.1
      simp [Input.encodeBytes, InputSpec.ofInput, InputSpec.encodeBytes,
        Input.serialized_size, UtxoId.encodeBytes, TxPointer.encodeBytes,
        INPUT_COIN_FIXED_SIZE, padded_len, hu, ho, ha]
      omega
  | Contract utxo_id balance_root state_root tx_pointer contract_id =>
      rw [Input.wf, decide_eq_true_eq] at h
      have hu : utxo_id.tx_id.length = 32 := by
        have := h.1
        rw [UtxoId.wf, decide_eq_true_eq] at this
        exact this.1
      have hb : balance_root.length = 32 := h.2.1
      have hs : state_root.length = 32 := h.2.2.1
      have hc : contract_id.length = 32 := h.2.2.2.2
      simp [Input.encodeBytes, InputSpec.ofInput, InputSpec.encodeBytes,
        Input.serialized_size, UtxoId.encodeBytes, TxPointer.encodeBytes,
        INPUT_CONTRACT_SIZE, hu, hb, hs, hc]
  | MessageSigned message_id sender recipient amount nonce witness_index data =>
      rw [Input.wf, decide_eq_true_eq] at h
      have hm : message_id.length = 32 := h.1
      have hs : sender.length = 32 := h.2.1
      have hr : recipient.length = 32 := h.2.2.1
      simp [Input.encodeBytes, InputSpec.ofInput, InputSpec.encodeBytes,
        Input.serialized_size, INPUT_MESSAGE_FIXED_SIZE, padded_len, hm, hs, hr]
      simp [fill_bytes]
      omega
  | MessagePredicate message_id sender recipient amount nonce data predicate predicate_data =>
      rw [Input.wf, decide_eq_true_eq] at h
      have hm : message_id.length = 32 := h.1
      have hs : sender.length = 32 := h.2.1
      have hr : recipient.length = 32 := h.2.2.1
      simp [Input.encodeBytes, InputSpec.ofInput, InputSpec.encodeBytes,
        Input.serialized_size, INPUT_MESSAGE_FIXED_SIZE, padded_len, hm, hs, hr]
      omega

/-- The concatenated encodings of a list of well-formed inputs have the
summed serialized sizes. -/
theorem inputs_flatten_length {l : List Input} (h : ∀ i ∈ l, i.wf = true) :
    ((l.map Input.encodeBytes).flatten).length
      = (l.map Input.serialized_size).sum := by
  induction l with
  | nil => simp
  | cons a t ih =>
      simp [input_encode_length (h a (by simp)), ih (fun x hx => h x (by simp [hx]))]

/-! ## Duplicate-detection lemmas -/

/-- The set-based scan reports nothing exactly when no element repeats and
none was already seen. -/
theorem next_duplicate_std_aux_none {α : Type} [DecidableEq α] (l : List α) :
    ∀ seen, next_duplicate_std_aux l seen = none
      ↔ l.Nodup ∧ ∀ x ∈ l, x ∉ seen := by
  induction l with
  | nil => simp [next_duplicate_std_aux]
  | cons a t ih =>
      intro seen
      by_cases hmem : a ∈ seen
      · simp only [next_duplicate_std_aux, if_pos hmem]
        constructor
        · intro hc
          exact absurd hc (by simp)
        · rintro ⟨-, hall⟩
          exact absurd hmem (hall a (by simp))
      · simp only [next_duplicate_std_aux, if_neg hmem]
        rw [ih (a :: seen)]
        simp only [List.nodup_cons, List.mem_cons, not_or]
        constructor
        · rintro ⟨hnd, hall⟩
          refine ⟨⟨fun hat => (hall a hat).1 rfl, hnd⟩, fun x hx => ?_⟩
          rcases hx with hx | hx
          · subst hx; exact hmem
          · exact (hall x hx).2
        · rintro ⟨⟨hat, hnd⟩, hall⟩
          refine ⟨hnd, fun x hx => ⟨fun hxa => hat (hxa ▸ hx), hall x (Or.inr hx)⟩⟩

/-- `duplicates().next()` returns nothing exactly on duplicate-free input. -/
theorem next_duplicate_std_none_iff {α : Type} [DecidableEq α] (l : List α) :
    next_duplicate_std l = none ↔ l.Nodup := by
  rw [next_duplicate_std, next_duplicate_std_aux_none]
  simp

/-- On a sorted list, the adjacent-equal scan finds nothing exactly when the
list is duplicate-free. -/
theorem firstAdjacentDup_none_iff {α : Type} [LinearOrder α] (l : List α)
    (h : l.Sorted (· ≤ ·)) : firstAdjacentDup l = none ↔ l.Nodup := by
  induction l with
  | nil => simp [firstAdjacentDup]
  | cons a t ih =>
      cases t with
      | nil => simp [firstAdjacentDup]
      | cons b u =>
          have hab : a ≤ b := (List.rel_of_sorted_cons h) b (by simp)
          have ht : (b :: u).Sorted (· ≤ ·) := h.of_cons
          by_cases heq : a = b
          · subst heq
            simp [firstAdjacentDup]
          · have hnotmem : a ∉ b :: u := by
              intro hmem
              rcases List.mem_cons.mp hmem with hx | hx
              · exact heq hx
              · exact heq (le_antisymm hab ((List.rel_of_sorted_cons ht) a hx))
            rw [firstAdjacentDup, if_neg heq, ih ht]
            simp [List.nodup_cons, hnotmem]

/-- The sort-based scan returns nothing exactly on duplicate-free input. -/
theorem next_duplicate_sorted_none_iff {α : Type} [LinearOrder α] (l : List α) :
    next_duplicate_sorted l = none ↔ l.Nodup := by
  have hsorted : (l.insertionSort (· ≤ ·)).Sorted (· ≤ ·) :=
    List.sorted_insertionSort (· ≤ ·) l
  rw [next_duplicate_sorted, firstAdjacentDup_none_iff _ hsorted]
  exact (List.perm_insertionSort (· ≤ ·) l).nodup_iff

/-! ## Validation-analysis lemmas -/

/-- Inversion for a successful `Except` bind. -/
theorem except_bind_ok_iff {ε α β : Type} {x : Except ε α} {f : α → Except ε β}
    {b : β} : (x >>= f) = .ok b ↔ ∃ a, x = .ok a ∧ f a = .ok b := by
  cases x <;> simp

/-- A successful indexed traversal succeeded on every element. -/
theorem tryForEachIdx_ok {α : Type} {f : Nat → α → Except ValidationError Unit} :
    ∀ (l : List α) (s : Nat), tryForEachIdx f s l = .ok ()
      → ∀ j (h : j < l.length), f (s + j) (l.get ⟨j, h⟩) = .ok () := by
  intro l
  induction l with
  | nil =>
      intro s _ j hj
      exact absurd hj (by simp)
  | cons a t ih =>
      intro s h j hj
      rw [tryForEachIdx] at h
      obtain ⟨u, h1, h2⟩ := except_bind_ok_iff.mp h
      cases j with
      | zero => simpa using h1
      | succ j =>
          have := ih (s + 1) h2 j (by simpa using Nat.lt_of_succ_lt_succ hj)
          simpa [Nat.add_comm, Nat.add_assoc, Nat.add_left_comm] using this

/-- A transaction that passes the shared validation core has no duplicated
coin-input utxo id, and every output passed its per-output check. -/
theorem internal_ok_parts {block_height : Nat} {parameters : ConsensusParameters}
    {gas_limit maturity : Nat} {inputs : List Input} {outputs : List Output}
    {witnesses : List Witness}
    (h : validate_without_signature_internal block_height parameters gas_limit
      maturity inputs outputs witnesses = .ok ()) :
    next_duplicate_std (coin_input_utxo_ids inputs) = none
      ∧ tryForEachIdx (output_asset_check inputs) 0 outputs = .ok () := by
  unfold validate_without_signature_internal at h
  split at h
  · exact Except.noConfusion h
  split at h
  · exact Except.noConfusion h
  split at h
  · exact Except.noConfusion h
  split at h
  · exact Except.noConfusion h
  split at h
  · exact Except.noConfusion h
  split at h
  · exact Except.noConfusion h
  split at h
  · exact Except.noConfusion h
  next hutxo =>
  split at h
  · exact Except.noConfusion h
  next hcid =>
  split at h
  · exact Except.noConfusion h
  next hmid =>
  obtain ⟨u, h1, h2⟩ := except_bind_ok_iff.mp h
  exact ⟨hutxo, h2⟩

/-- A `Contract` output accepted by `Output::validate` names a contract
input. -/
theorem output_validate_contract {o : Output} {idx : Nat} {inputs : List Input}
    (h : Output.validate o idx inputs = .ok ()) :
    ∀ input_index balance_root state_root,
      o = .Contract input_index balance_root state_root →
        ∃ inp, inputs.get? input_index = some inp ∧ inp.is_contract = true := by
  intro input_index balance_root state_root heq
  subst heq
  rw [Output.validate] at h
  split at h
  next u br sr tp cid heq2 =>
      exact ⟨.Contract u br sr tp cid, heq2, rfl⟩
  next => exact Except.noConfusion h

/-- A successful `Create` output loop saw no `Contract` or `Variable` output
and — counting the flag — at most one `ContractCreated` output. -/
theorem create_outputs_loop_ok :
    ∀ (l : List Output) (i : Nat) (b : Bool), create_outputs_loop i b l = .ok ()
      → (∀ o ∈ l, o.is_contract = false ∧ o.is_variable = false)
        ∧ l.countP Output.is_contract_created + (if b then 1 else 0) ≤ 1 := by
  intro l
  induction l with
  | nil =>
      intro i b _
      refine ⟨by simp, ?_⟩
      split <;> simp
  | cons o t ih =>
      intro i b h
      rw [create_outputs_loop] at h
      obtain ⟨b2, hc, hrest⟩ := except_bind_ok_iff.mp h
      have htail := fun hb2 => ih (i + 1) b2 hb2
      cases o with
      | Coin toAddress amount asset_id =>
          simp only [create_output_check, Except.ok.injEq] at hc
          subst hc
          obtain ⟨h1, h2⟩ := htail hrest
          refine ⟨?_, ?_⟩
          · intro x hx
            rcases List.mem_cons.mp hx with hx | hx
            · subst hx; exact ⟨rfl, rfl⟩
            · exact h1 x hx
          · simpa [List.countP_cons, Output.is_contract_created] using h2
      | Contract input_index balance_root state_root =>
          simp only [create_output_check] at hc
          exact Except.noConfusion hc
      | Message recipient amount =>
          simp only [create_output_check, Except.ok.injEq] at hc
          subst hc
          obtain ⟨h1, h2⟩ := htail hrest
          refine ⟨?_, ?_⟩
          · intro x hx
            rcases List.mem_cons.mp hx with hx | hx
            · subst hx; exact ⟨rfl, rfl⟩
            · exact h1 x hx
          · simpa [List.countP_cons, Output.is_contract_created] using h2
      | Change toAddress amount asset_id =>
          simp only [create_output_check] at hc
          split at hc
          · exact Except.noConfusion hc
          · have hb : b = b2 := (Except.ok.injEq _ _).mp hc
            subst hb
            obtain ⟨h1, h2⟩ := htail hrest
            refine ⟨?_, ?_⟩
            · intro x hx
              rcases List.mem_cons.mp hx with hx | hx
              · subst hx; exact ⟨rfl, rfl⟩
              · exact h1 x hx
            · simpa [List.countP_cons, Output.is_contract_created] using h2
      | Variable toAddress amount asset_id =>
          simp only [create_output_check] at hc
          exact Except.noConfusion hc
      | ContractCreated contract_id state_root =>
          simp only [create_output_check] at hc
          cases b with
          | true => exact Except.noConfusion hc
          | false =>
              have hb : b2 = true := ((Except.ok.injEq _ _).mp hc).symm
              subst hb
              obtain ⟨h1, h2⟩ := htail hrest
              refine ⟨?_, ?_⟩
              · intro x hx
                rcases List.mem_cons.mp hx with hx | hx
                · subst hx; exact ⟨rfl, rfl⟩
                · exact h1 x hx
              · have h2a : List.countP Output.is_contract_created t + 1 ≤ 1 := by
                  simpa using h2
                have hcnt : List.countP Output.is_contract_created
                    (Output.ContractCreated contract_id state_root :: t)
                    = List.countP Output.is_contract_created t + 1 := by
                  simp [List.countP_cons, Output.is_contract_created]
                rw [hcnt]
                simpa using h2a

/-- With a non-`Coin` output present, the `Mint` loop fails. -/
theorem mint_outputs_check_not_coin :
    ∀ (outputs : List Output) (seen : List (List Nat)),
      (¬ ∀ o ∈ outputs, o.is_coin = true)
        → mint_outputs_check seen outputs = .error .OutputOfMintIsNotCoin := by
  intro outputs
  induction outputs with
  | nil => intro seen h; exact absurd (by simp) h
  | cons o t ih =>
      intro seen h
      cases o with
      | Coin toAddress amount asset_id =>
          rw [mint_outputs_check]
          refine ih _ fun hall => h ?_
          intro x hx
          rcases List.mem_cons.mp hx with hx | hx
          · subst hx; rfl
          · exact hall x hx
      | Contract input_index balance_root state_root => rfl
      | Message recipient amount => rfl
      | Change toAddress amount asset_id => rfl
      | Variable toAddress amount asset_id => rfl
      | ContractCreated contract_id state_root => rfl

/-- With only `Coin` outputs, the `Mint` loop folds the asset ids into the
seen-set. -/
theorem mint_outputs_check_all_coin :
    ∀ (outputs : List Output) (seen : List (List Nat)),
      (∀ o ∈ outputs, o.is_coin = true)
        → mint_outputs_check seen outputs
          = .ok ((mintAssets outputs).foldl
              (fun s a => if a ∈ s then s else a :: s) seen) := by
  intro outputs
  induction outputs with
  | nil => intro seen _; simp [mint_outputs_check, mintAssets]
  | cons o t ih =>
      intro seen h
      cases o with
      | Coin toAddress amount asset_id =>
          rw [mint_outputs_check]
          rw [ih _ fun x hx => h x (by simp [hx])]
          simp [mintAssets]
      | Contract input_index balance_root state_root =>
          exact absurd (h _ (List.mem_cons_self _ _)) (by simp [Output.is_coin])
      | Message recipient amount =>
          exact absurd (h _ (List.mem_cons_self _ _)) (by simp [Output.is_coin])
      | Change toAddress amount asset_id =>
          exact absurd (h _ (List.mem_cons_self _ _)) (by simp [Output.is_coin])
      | Variable toAddress amount asset_id =>
          exact absurd (h _ (List.mem_cons_self _ _)) (by simp [Output.is_coin])
      | ContractCreated contract_id state_root =>
          exact absurd (h _ (List.mem_cons_self _ _)) (by simp [Output.is_coin])

/-- The seen-set fold keeps the set duplicate-free and collects exactly the
already-seen and newly traversed values. -/
theorem foldl_insert_spec :
    ∀ (l : List (List Nat)) (seen : List (List Nat)), seen.Nodup
      → (l.foldl (fun s a => if a ∈ s then s else a :: s) seen).Nodup
        ∧ ∀ x, x ∈ l.foldl (fun s a => if a ∈ s then s else a :: s) seen
            ↔ x ∈ seen ∨ x ∈ l := by
  intro l
  induction l with
  | nil => intro seen hs; simpa using hs
  | cons a t ih =>
      intro seen hs
      by_cases hmem : a ∈ seen
      · have := ih seen hs
        simp only [List.foldl_cons, if_pos hmem]
        refine ⟨this.1, fun x => ?_⟩
        rw [this.2 x]
        constructor
        · rintro (hx | hx)
          · exact Or.inl hx
          · exact Or.inr (by simp [hx])
        · rintro (hx | hx)
          · exact Or.inl hx
          · rcases List.mem_cons.mp hx with hx | hx
            · subst hx; exact Or.inl hmem
            · exact Or.inr hx
      · have := ih (a :: seen) (by simp [List.nodup_cons, hmem, hs])
        simp only [List.foldl_cons, if_neg hmem]
        refine ⟨this.1, fun x => ?_⟩
        rw [this.2 x]
        simp only [List.mem_cons]
        tauto

/-- The number of distinct values in a list equals its length exactly when
the list is duplicate-free. -/
theorem dedup_length_eq_iff {α : Type} [DecidableEq α] (l : List α) :
    l.dedup.length = l.length ↔ l.Nodup := by
  constructor
  · intro h
    have := (List.dedup_sublist l).eq_of_length h
    rw [← this]
    exact List.nodup_dedup l
  · intro h
    rw [List.Nodup.dedup h]

/-- Starting from an empty seen-set, the fold produces one entry per
distinct value. -/
theorem foldl_insert_length (l : List (List Nat)) :
    (l.foldl (fun s a => if a ∈ s then s else a :: s) []).length
      = l.dedup.length := by
  obtain ⟨hnd, hmem⟩ := foldl_insert_spec l [] (by simp)
  have h1 : (l.foldl (fun s a => if a ∈ s then s else a :: s) []).toFinset
      = l.toFinset := by
    ext x
    simp [List.mem_toFinset, hmem x]
  calc (l.foldl (fun s a => if a ∈ s then s else a :: s) []).length
      = (l.foldl (fun s a => if a ∈ s then s else a :: s) []).dedup.length := by
        rw [List.Nodup.dedup hnd]
    _ = (l.foldl (fun s a => if a ∈ s then s else a :: s) []).toFinset.card := by
        rw [List.card_toFinset]
    _ = l.toFinset.card := by rw [h1]
    _ = l.dedup.length := List.card_toFinset l

/-- With only `Coin` outputs, there are as many asset ids as outputs. -/
theorem mintAssets_length :
    ∀ (outputs : List Output), (∀ o ∈ outputs, o.is_coin = true)
      → (mintAssets outputs).length = outputs.length := by
  intro outputs
  induction outputs with
  | nil => intro _; rfl
  | cons o t ih =>
      intro h
      cases o with
      | Coin toAddress amount asset_id =>
          simp [mintAssets] at ih ⊢
          exact ih fun x hx => h x (by simp [hx])
      | Contract input_index balance_root state_root =>
          exact absurd (h _ (List.mem_cons_self _ _)) (by simp [Output.is_coin])
      | Message recipient amount =>
          exact absurd (h _ (List.mem_cons_self _ _)) (by simp [Output.is_coin])
      | Change toAddress amount asset_id =>
          exact absurd (h _ (List.mem_cons_self _ _)) (by simp [Output.is_coin])
      | Variable toAddress amount asset_id =>
          exact absurd (h _ (List.mem_cons_self _ _)) (by simp [Output.is_coin])
      | ContractCreated contract_id state_root =>
          exact absurd (h _ (List.mem_cons_self _ _)) (by simp [Output.is_coin])

/-! ## Fee lemmas -/

/-- Ceiling division by a positive divisor never exceeds the dividend, so
the `u128 -> u64` conversion after the division cannot fail. -/
theorem div_ceil_le {a f : Nat} (hf : 0 < f) : div_ceil a f ≤ a := by
  rw [div_ceil]
  split
  · exact Nat.div_le_self a f
  · next hmod =>
      rcases Nat.lt_or_ge f 2 with hf2 | hf2
      · interval_cases f
        · exact absurd (Nat.mod_one a) hmod
      · have ha : 0 < a := by
          rcases Nat.eq_zero_or_pos a with rfl | ha
          · exact absurd (Nat.zero_mod f) hmod
          · exact ha
        exact Nat.div_lt_self ha hf2

/--
C2: `TransactionFee::from_values` computes the two ceiling-division fees, but
the multiplications and the addition are checked in 64-bit arithmetic — only
the final ceiling division runs in the widened 128-bit type — so the call
fails with `ArithmeticOverflow` exactly when one of the four 64-bit steps
(`gas_per_byte * metered_bytes`, `+ gas_limit`, `* gas_price` for the total,
and `bytes * gas_price` for the bytes fee) exceeds `u64::MAX`; on success the
returned components are the exact ceiling quotients.
-/
theorem claim_fee_from_values_formula (params : ConsensusParameters)
    (metered_bytes gas_limit gas_price : Nat)
    (hf : 0 < params.gas_price_factor) :
    TransactionFee.from_values params metered_bytes gas_limit gas_price =
      if params.gas_per_byte * metered_bytes < wordModulus
          ∧ params.gas_per_byte * metered_bytes + gas_limit < wordModulus
          ∧ (params.gas_per_byte * metered_bytes + gas_limit) * gas_price < wordModulus
          ∧ params.gas_per_byte * metered_bytes * gas_price < wordModulus
      then some ⟨div_ceil (params.gas_per_byte * metered_bytes * gas_price)
                  params.gas_price_factor,
                div_ceil ((params.gas_per_byte * metered_bytes + gas_limit) * gas_price)
                  params.gas_price_factor⟩
      else none := by
  by_cases h1 : params.gas_per_byte * metered_bytes < wordModulus
  · by_cases h2 : params.gas_per_byte * metered_bytes + gas_limit < wordModulus
    · by_cases h3 : (params.gas_per_byte * metered_bytes + gas_limit) * gas_price
          < wordModulus
      · by_cases h4 : params.gas_per_byte * metered_bytes * gas_price < wordModulus
        · have hd3 : div_ceil ((params.gas_per_byte * metered_bytes + gas_limit)
              * gas_price) params.gas_price_factor < wordModulus :=
            lt_of_le_of_lt (div_ceil_le hf) h3
          have hd4 : div_ceil (params.gas_per_byte * metered_bytes * gas_price)
              params.gas_price_factor < wordModulus :=
            lt_of_le_of_lt (div_ceil_le hf) h4
          simp [TransactionFee.from_values, checked_mul, checked_add,
            u64_try_from, h1, h2, h3, h4, hd3, hd4]
        · simp [TransactionFee.from_values, checked_mul, checked_add,
            u64_try_from, h1, h2, h3, h4]
      · by_cases h4 : params.gas_per_byte * metered_bytes * gas_price < wordModulus
        · simp [TransactionFee.from_values, checked_mul, checked_add,
            u64_try_from, h1, h2, h3, h4, lt_of_le_of_lt (div_ceil_le hf) h4]
        · simp [TransactionFee.from_values, checked_mul, checked_add,
            u64_try_from, h1, h2, h3, h4]
    · simp [TransactionFee.from_values, checked_mul, checked_add, u64_try_from,
        h1, h2]
  · simp [TransactionFee.from_values, checked_mul, checked_add, u64_try_from, h1]

/--
C2 witness: concrete evaluation through the formula; with `gas_per_byte = 1`
and a unit price factor, 100 metered bytes at gas price 3 and gas limit 10
cost 300 (bytes) and 330 (total).
-/
theorem claim_fee_from_values_formula_witness :
    0 < unitParams.gas_price_factor
      ∧ TransactionFee.from_values unitParams 100 10 3 = some ⟨300, 330⟩ := by
  refine ⟨by decide, ?_⟩
  rw [claim_fee_from_values_formula unitParams 100 10 3 (by decide)]
  decide

/--
C2 counterexample: the claim says the computation fails only when a step
exceeds the representable range *even in the widened type*.  With
`gas_per_byte = metered_bytes = 2^32`, `gas_price = 1` and price factor
`2^32`, every widened step is representable (the products fit in `u128` and
the final quotient fits in `u64`), yet `from_values` returns the
`ArithmeticOverflow` error because the 64-bit checked multiplication
overflows.
-/
theorem claim_fee_widened_cex :
    TransactionFee.from_values wideParams 4294967296 0 1 = none
      ∧ wideParams.gas_per_byte * 4294967296 * 1 < 2 ^ 128
      ∧ div_ceil (wideParams.gas_per_byte * 4294967296 * 1)
          wideParams.gas_price_factor < wordModulus := by
  refine ⟨by decide, by decide, by decide⟩

/--
C6 (amended): the overflow guarantee holds with a factor at least two —
`metered_bytes = u64::MAX` with `gas_per_byte >= 2` overflows, and
`gas_price = u64::MAX` with `gas_per_byte * metered_bytes + gas_limit >= 2`
overflows; in every such case `from_values` reports `ArithmeticOverflow`
(`none`) rather than wrapping.
-/
theorem claim_fee_overflow_amended (params : ConsensusParameters)
    (metered_bytes gas_limit gas_price : Nat) :
    (metered_bytes = wordModulus - 1 → 2 ≤ params.gas_per_byte
      → TransactionFee.from_values params metered_bytes gas_limit gas_price = none)
    ∧ (gas_price = wordModulus - 1
        → 2 ≤ params.gas_per_byte * metered_bytes + gas_limit
        → TransactionFee.from_values params metered_bytes gas_limit gas_price
            = none) := by
  constructor
  · intro hmb hgpb
    subst hmb
    have hover : ¬ params.gas_per_byte * (wordModulus - 1) < wordModulus := by
      have : 2 * (wordModulus - 1) ≤ params.gas_per_byte * (wordModulus - 1) :=
        Nat.mul_le_mul_right _ hgpb
      have hM : 2 ≤ wordModulus := by norm_num [wordModulus]
      omega
    simp [TransactionFee.from_values, checked_mul, hover]
  · intro hgp hsum
    subst hgp
    by_cases h1 : params.gas_per_byte * metered_bytes < wordModulus
    · by_cases h2 : params.gas_per_byte * metered_bytes + gas_limit < wordModulus
      · have hover : ¬ (params.gas_per_byte * metered_bytes + gas_limit)
            * (wordModulus - 1) < wordModulus := by
          have : 2 * (wordModulus - 1)
              ≤ (params.gas_per_byte * metered_bytes + gas_limit)
                * (wordModulus - 1) :=
            Nat.mul_le_mul_right _ hsum
          have hM : 2 ≤ wordModulus := by norm_num [wordModulus]
          omega
        simp [TransactionFee.from_values, checked_mul, checked_add, u64_try_from,
          h1, h2, hover]
      · simp [TransactionFee.from_values, checked_mul, checked_add, u64_try_from,
          h1, h2]
    · simp [TransactionFee.from_values, checked_mul, h1]

/--
C6 witness: both amended overflow cases at concrete inputs — metered bytes
`u64::MAX` with `gas_per_byte = 2`, and gas price `u64::MAX` with two
metered bytes at `gas_per_byte = 1`.
-/
theorem claim_fee_overflow_amended_witness :
    TransactionFee.from_values twoParams (wordModulus - 1) 0 1 = none
      ∧ TransactionFee.from_values unitParams 2 0 (wordModulus - 1) = none := by
  exact ⟨(claim_fee_overflow_amended twoParams (wordModulus - 1) 0 1).1 rfl
      (by decide),
    (claim_fee_overflow_amended unitParams 2 0 (wordModulus - 1)).2 rfl (by decide)⟩

/--
C6 counterexample: with `metered_bytes = u64::MAX` and the nonzero
co-multiplier `gas_per_byte = 1` (unit factor, gas price 1, no gas limit),
`from_values` succeeds with the exact fee instead of returning
`ArithmeticOverflow` as the claim demands.
-/
theorem claim_fee_overflow_cex :
    TransactionFee.from_values unitParams (wordModulus - 1) 0 1
        = some ⟨wordModulus - 1, wordModulus - 1⟩
      ∧ unitParams.gas_per_byte ≠ 0 := by
  refine ⟨by decide, by decide⟩

/--
C9 (amended): the two feature-gated `next_duplicate` implementations agree on
*whether* a duplicate exists — each returns `none` exactly when the sequence
is duplicate-free — but not on *which* duplicate they report: the sorted path
yields the smallest duplicated value, the set-based path the value whose
second occurrence comes first.
-/
theorem claim_next_duplicate_none_agree {α : Type} [LinearOrder α]
    (l : List α) :
    (next_duplicate_sorted l = none ↔ l.Nodup)
      ∧ (next_duplicate_std l = none ↔ l.Nodup) :=
  ⟨next_duplicate_sorted_none_iff l, next_duplicate_std_none_iff l⟩

/-- C9 witness: the agreement-on-existence statement at the concrete list `[2, 7, 7]`. -/
theorem claim_next_duplicate_none_agree_witness :
    (next_duplicate_sorted [2, 7, 7] = none ↔ ([2, 7, 7] : List Nat).Nodup)
      ∧ (next_duplicate_std [2, 7, 7] = none ↔ ([2, 7, 7] : List Nat).Nodup) :=
  claim_next_duplicate_none_agree [2, 7, 7]

/--
C9 counterexample: on `[3, 3, 1, 1]` the sort-plus-adjacent-scan path
returns `1` (the first duplicate in ascending order) while the set-based
path returns `3` (the first value to reach its second occurrence), so the
two implementations do not return the same result.
-/
theorem claim_next_duplicate_cex :
    next_duplicate_sorted [3, 3, 1, 1] = some 1
      ∧ next_duplicate_std [3, 3, 1, 1] = some 3 := by
  refine ⟨by decide, by decide⟩

/--
C3 (amended): the free-balance computation is exactly the claimed algorithm
amended in one corner: when the summed coin-input mapping holds no base-asset
entry at all, the code fails with `InsufficientFeeAmount { expected: fee,
provided: 0 }` even when the fee is zero (where the claim's reading — "fail
if the subtraction would go negative" — would succeed and leave the mapping
untouched).  The theorem is quantified over the already-computed total fee.
-/
theorem claim_initial_free_balances_amended (inputs : List Input)
    (outputs : List Output) (fee : Nat) :
    initial_free_balances inputs outputs fee
      = amended_initial_free_balances inputs outputs fee := by
  rw [initial_free_balances, amended_initial_free_balances]
  cases hmg : mapGet (sum_coin_inputs inputs) baseAssetId with
  | none => rfl
  | some balance =>
      by_cases hle : fee ≤ balance
      · simp only [checked_sub, if_pos hle, if_neg (show ¬ balance < fee by omega)]
      · simp only [checked_sub, if_neg hle, if_pos (show balance < fee by omega)]

/-- C3 witness: the equality of the two balance computations at a concrete input. -/
theorem claim_initial_free_balances_amended_witness :
    initial_free_balances [Input.CoinSigned utxoA zero32 50 zero32 ⟨0, 0⟩ 0 0] [] 3
      = amended_initial_free_balances [Input.CoinSigned utxoA zero32 50 zero32 ⟨0, 0⟩ 0 0] [] 3 :=
  claim_initial_free_balances_amended [Input.CoinSigned utxoA zero32 50 zero32 ⟨0, 0⟩ 0 0] [] 3

/--
C3 counterexample: the empty transaction (which passes structural
validation, has no inputs and no outputs, and whose fee is zero) makes
`_initial_free_balances` fail with `InsufficientFeeAmount { expected: 0,
provided: 0 }`, while the algorithm exactly as claimed succeeds with the
empty mapping.
-/
theorem claim_initial_free_balances_cex :
    initial_free_balances [] [] 0 = .error (.InsufficientFeeAmount 0 0)
      ∧ claimed_initial_free_balances [] [] 0 = .ok []
      ∧ Transaction.validate_without_signature (.Script 0 0 0 [] [] [] [] [] zero32)
          0 testParams = .ok () := by
  refine ⟨by decide, by decide, by decide⟩

/--
C8 (code bug): for the `UtxoId` with zero `tx_id` and `output_index = 16`,
the lower-hex textual form is `0x`, 64 zeros, then the two hex characters
`10` — exactly as the claim describes — but `from_str` hands all but the
last character to `Bytes32::from_str` and parses only the final hex digit
as the `output_index`, so parsing the rendered string yields
`output_index = 0` instead of `16`: the textual round trip fails for every
`output_index >= 16`.
-/
theorem claim_utxo_id_hex_bug :
    UtxoId.lowerHex utxoIndex16
        = [48, 120] ++ bytesToHexLower zero32 ++ [49, 48]
      ∧ (bytesToHexLower zero32).length = 64
      ∧ UtxoId.from_str (UtxoId.lowerHex utxoIndex16) = some ⟨zero32, 0⟩
      ∧ utxoIndex16.output_index = 16 := by
  refine ⟨by decide, by decide, by decide, by decide⟩

/--
C10: a `Mint` transaction validates exactly when every output is a `Coin`
output with pairwise distinct asset ids; a non-`Coin` output yields
`OutputOfMintIsNotCoin`, and all-`Coin` outputs with a repeated asset id
yield `TransactionOutputCoinAssetIdDuplicated`.
-/
theorem claim_mint_validation (outputs : List Output) (block_height : Nat)
    (parameters : ConsensusParameters) :
    Transaction.validate_without_signature (.Mint outputs) block_height parameters
      = if ∀ o ∈ outputs, o.is_coin = true then
          (if (mintAssets outputs).Nodup then .ok ()
           else .error .TransactionOutputCoinAssetIdDuplicated)
        else .error .OutputOfMintIsNotCoin := by
  by_cases hall : ∀ o ∈ outputs, o.is_coin = true
  · rw [if_pos hall, Transaction.validate_without_signature,
      mint_outputs_check_all_coin outputs [] hall]
    simp only [except_bind_ok]
    have hlen : ((mintAssets outputs).foldl
        (fun s a => if a ∈ s then s else a :: s) []).length
        = (mintAssets outputs).dedup.length := foldl_insert_length _
    have hassets : (mintAssets outputs).length = outputs.length :=
      mintAssets_length outputs hall
    by_cases hnd : (mintAssets outputs).Nodup
    · have heq : ((mintAssets outputs).foldl
          (fun s a => if a ∈ s then s else a :: s) []).length = outputs.length := by
        rw [hlen, (dedup_length_eq_iff _).mpr hnd, hassets]
      simp [heq, hnd]
    · have hne : ((mintAssets outputs).foldl
          (fun s a => if a ∈ s then s else a :: s) []).length ≠ outputs.length := by
        rw [hlen, ← hassets]
        intro hcontra
        exact hnd ((dedup_length_eq_iff _).mp hcontra)
      simp [hne, hnd]
      rfl
  · rw [if_neg hall, Transaction.validate_without_signature,
      mint_outputs_check_not_coin outputs [] hall]
    rfl

/-- C10 witness: the Mint validation equation at a concrete two-coin output list. -/
theorem claim_mint_validation_witness :
    Transaction.validate_without_signature
        (.Mint [Output.Coin zero32 5 zero32, Output.Coin zero32 7 (List.replicate 32 1)])
        0 testParams
      = if ∀ o ∈ [Output.Coin zero32 5 zero32,
                  Output.Coin zero32 7 (List.replicate 32 1)], o.is_coin = true then
          (if (mintAssets [Output.Coin zero32 5 zero32,
                           Output.Coin zero32 7 (List.replicate 32 1)]).Nodup then .ok ()
           else .error .TransactionOutputCoinAssetIdDuplicated)
        else .error .OutputOfMintIsNotCoin :=
  claim_mint_validation
    [Output.Coin zero32 5 zero32, Output.Coin zero32 7 (List.replicate 32 1)] 0 testParams

/--
C7 (amended): a transaction two of whose *coin* inputs share a `UtxoId`
never passes `validate_without_signature` (the duplicate check that raises
`DuplicateInputUtxoId` only inspects coin inputs, so the claim's "every
input" had to shrink to coin inputs), and on the concrete two-coin-input
transaction whose earlier checks all pass, the reported error is exactly
`DuplicateInputUtxoId` carrying the shared `UtxoId`.
-/
theorem claim_duplicate_coin_utxo :
    (∀ (t : Transaction) (block_height : Nat) (parameters : ConsensusParameters),
      ¬ (coin_input_utxo_ids t.inputsOf).Nodup
        → t.validate_without_signature block_height parameters ≠ .ok ())
    ∧ Transaction.validate_without_signature dupCoinUtxoTx 0 testParams
        = .error (.DuplicateInputUtxoId utxoA) := by
  refine ⟨?_, by decide⟩
  intro t block_height parameters h hok
  cases t with
  | Script gas_price gas_limit maturity script script_data inputs outputs
      witnesses receipts_root =>
      rw [Transaction.validate_without_signature] at hok
      obtain ⟨u, h1, h2⟩ := except_bind_ok_iff.mp hok
      have hnone := (internal_ok_parts h1).1
      rw [next_duplicate_std_none_iff] at hnone
      exact h (by simpa [Transaction.inputsOf] using hnone)
  | Create gas_price gas_limit maturity bytecode_length bytecode_witness_index
      storage_slots inputs outputs witnesses salt =>
      rw [Transaction.validate_without_signature] at hok
      obtain ⟨u, h1, h2⟩ := except_bind_ok_iff.mp hok
      have hnone := (internal_ok_parts h1).1
      rw [next_duplicate_std_none_iff] at hnone
      exact h (by simpa [Transaction.inputsOf] using hnone)
  | Mint outputs =>
      exact h (by simp [Transaction.inputsOf, coin_input_utxo_ids])

/--
C7 witness: two signed coin inputs spending the same `UtxoId` make
validation fail.
-/
theorem claim_duplicate_coin_utxo_witness :
    ¬ (coin_input_utxo_ids dupCoinUtxoTx.inputsOf).Nodup
      ∧ Transaction.validate_without_signature dupCoinUtxoTx 0 testParams
          ≠ .ok () :=
  ⟨by decide, claim_duplicate_coin_utxo.1 dupCoinUtxoTx 0 testParams (by decide)⟩

/--
C7 counterexample: two *contract* inputs share the same `UtxoId` (with
distinct contract ids), yet the transaction passes
`validate_without_signature` — the duplicate-`UtxoId` check only covers coin
inputs, so the claim as stated over all inputs is false.
-/
theorem claim_duplicate_utxo_cex :
    Transaction.validate_without_signature dupContractUtxoTx 0 testParams = .ok ()
      ∧ (dupContractUtxoTx.inputsOf.get? 0).bind Input.utxo_id = some utxoA
      ∧ (dupContractUtxoTx.inputsOf.get? 1).bind Input.utxo_id = some utxoA := by
  refine ⟨by decide, by decide, by decide⟩

/--
C4 (amended): when `validate_without_signature` succeeds, every
`Contract`-type output's `input_index` names an `Input::Contract` at that
position, and a `Create` transaction has no `Contract`-type and no
`Variable`-type outputs and *at most* one `ContractCreated` output (the
claim's "exactly one" is amended to "at most one": validation never requires
a `ContractCreated` output to be present).
-/
theorem claim_validation_output_structure (t : Transaction) (block_height : Nat)
    (parameters : ConsensusParameters)
    (h : t.validate_without_signature block_height parameters = .ok ()) :
    (∀ index output, t.outputsOf.get? index = some output →
       ∀ input_index balance_root state_root,
         output = .Contract input_index balance_root state_root →
           ∃ inp, t.inputsOf.get? input_index = some inp ∧ inp.is_contract = true)
    ∧ (t.is_create = true →
        (∀ o ∈ t.outputsOf, o.is_contract = false ∧ o.is_variable = false)
          ∧ t.outputsOf.countP Output.is_contract_created ≤ 1) := by
  cases t with
  | Script gas_price gas_limit maturity script script_data inputs outputs
      witnesses receipts_root =>
      rw [Transaction.validate_without_signature] at h
      obtain ⟨u, h1, h2⟩ := except_bind_ok_iff.mp h
      have hparts := internal_ok_parts h1
      constructor
      · intro index output hget input_index balance_root state_root heq
        simp only [Transaction.outputsOf] at hget
        obtain ⟨hlt, hgeteq⟩ := List.get?_eq_some.mp hget
        subst heq
        have hchecked := tryForEachIdx_ok outputs 0 hparts.2 index hlt
        rw [hgeteq] at hchecked
        simp only [output_asset_check] at hchecked
        obtain ⟨u2, hv, -⟩ := except_bind_ok_iff.mp hchecked
        cases u2
        simpa [Transaction.inputsOf] using
          output_validate_contract hv input_index balance_root state_root rfl
      · intro hc
        exact absurd hc (by simp [Transaction.is_create])
  | Create gas_price gas_limit maturity bytecode_length bytecode_witness_index
      storage_slots inputs outputs witnesses salt =>
      rw [Transaction.validate_without_signature] at h
      obtain ⟨u, h1, hrest⟩ := except_bind_ok_iff.mp h
      have hparts := internal_ok_parts h1
      constructor
      · intro index output hget input_index balance_root state_root heq
        simp only [Transaction.outputsOf] at hget
        obtain ⟨hlt, hgeteq⟩ := List.get?_eq_some.mp hget
        subst heq
        have hchecked := tryForEachIdx_ok outputs 0 hparts.2 index hlt
        rw [hgeteq] at hchecked
        simp only [output_asset_check] at hchecked
        obtain ⟨u2, hv, -⟩ := except_bind_ok_iff.mp hchecked
        cases u2
        simpa [Transaction.inputsOf] using
          output_validate_contract hv input_index balance_root state_root rfl
      · intro hcreate
        split at hrest
        · exact Except.noConfusion hrest
        next bytecode_witness_len heq2 =>
        split at hrest
        · exact Except.noConfusion hrest
        split at hrest
        · exact Except.noConfusion hrest
        split at hrest
        · exact Except.noConfusion hrest
        obtain ⟨u2, -, hloop⟩ := except_bind_ok_iff.mp hrest
        have hfacts := create_outputs_loop_ok outputs 0 false hloop
        refine ⟨by simpa [Transaction.outputsOf] using hfacts.1, ?_⟩
        have := hfacts.2
        simpa [Transaction.outputsOf] using this
  | Mint outputs =>
      rw [Transaction.validate_without_signature] at h
      obtain ⟨s, hchk, h2⟩ := except_bind_ok_iff.mp h
      have hall : ∀ o ∈ outputs, o.is_coin = true := by
        by_contra hnc
        rw [mint_outputs_check_not_coin outputs [] hnc] at hchk
        exact Except.noConfusion hchk
      constructor
      · intro index output hget input_index balance_root state_root heq
        simp only [Transaction.outputsOf] at hget
        have hmem := List.get?_mem hget
        have := hall output hmem
        rw [heq] at this
        exact absurd this (by simp [Output.is_coin])
      · intro hc
        exact absurd hc (by simp [Transaction.is_create])

/--
C4 witness: a script transaction with one contract input and the matching
contract output validates, and the theorem recovers the contract input
behind output index 0.
-/
theorem claim_validation_output_structure_witness :
    ∃ inp, contractPairTx.inputsOf.get? 0 = some inp ∧ inp.is_contract = true :=
  (claim_validation_output_structure contractPairTx 0 testParams (by decide)).1
    0 (.Contract 0 zero32 zero32) (by decide) 0 zero32 zero32 rfl

/--
C4 counterexample: a `Create` transaction with *zero* `ContractCreated`
outputs passes `validate_without_signature`, so validation does not require
"exactly one" `ContractCreated` output.
-/
theorem claim_create_contract_created_cex :
    Transaction.validate_without_signature createNoContractCreated 0 testParams
        = .ok ()
      ∧ createNoContractCreated.is_create = true
      ∧ createNoContractCreated.outputsOf.countP Output.is_contract_created = 0 := by
  refine ⟨by decide, by decide, by decide⟩

/--
C1: decoding the canonical encoding of any well-formed (valid) transaction
returns the transaction with the whole buffer consumed.
-/
theorem claim_transaction_roundtrip (t : Transaction) (h : t.wf = true) :
    Transaction.decodeBytes t.encodeBytes = .ok (t, []) := by
  have hgen := decodeBytes_encodeBytes (t := t) [] h
  rwa [List.append_nil] at hgen

/-- C1 witness: the sample script transaction round-trips. -/
theorem claim_transaction_roundtrip_witness :
    sampleScriptTx.wf = true
      ∧ Transaction.decodeBytes sampleScriptTx.encodeBytes
          = .ok (sampleScriptTx, []) :=
  ⟨by decide, claim_transaction_roundtrip sampleScriptTx (by decide)⟩

/-- The concatenated encodings of well-formed storage slots occupy
`SLOT_SIZE` bytes each. -/
theorem slots_flatten_length {l : List StorageSlot} (h : ∀ s ∈ l, s.wf = true) :
    ((l.map StorageSlot.encodeBytes).flatten).length = SLOT_SIZE * l.length := by
  induction l with
  | nil => simp
  | cons a t ih =>
      have ha := h a (by simp)
      rw [StorageSlot.wf, decide_eq_true_eq] at ha
      simp [StorageSlot.encodeBytes, ha.1, ha.2, SLOT_SIZE,
        ih (fun x hx => h x (by simp [hx])), Nat.mul_succ]
      ring

/-- Splitting a list at a position named by `get?`. -/
theorem list_split_at_get {α : Type} {l : List α} {index : Nat} {a : α}
    (hget : l.get? index = some a) :
    l = l.take index ++ a :: l.drop (index + 1) := by
  obtain ⟨hlt, hgeteq⟩ := List.get?_eq_some.mp hget
  have hgetel : l[index] = a := by
    rw [List.get_eq_getElem] at hgeteq
    exact hgeteq
  conv_lhs => rw [← List.take_append_drop index l]
  rw [List.drop_eq_getElem_cons hlt, hgetel]

/--
C5: for every well-formed transaction and every valid input index, slicing
the serialized bytes at `input_offset(index)` and decoding an `Input` there
yields exactly that input.
-/
theorem claim_input_offset_decode (t : Transaction) (h : t.wf = true)
    (index : Nat) (input : Input)
    (hget : t.inputsOf.get? index = some input) :
    ∃ off rest, t.input_offset index = some off
      ∧ Input.decodeBytes (t.encodeBytes.drop off) = .ok (input, rest) := by
  cases t with
  | Script gas_price gas_limit maturity script script_data inputs outputs
      witnesses receipts_root =>
      rw [Transaction.wf, decide_eq_true_eq] at h
      obtain ⟨h1, h2, h3, h4, h5, h6, h7, h8, h9, hin, hout, hwit⟩ := h
      simp only [Transaction.inputsOf] at hget
      have hsplit := list_split_at_get hget
      have hwfin : input.wf = true := hin input (List.get?_mem hget)
      have hwftake : ∀ x ∈ inputs.take index, x.wf = true :=
        fun x hx => hin x (List.mem_of_mem_take hx)
      have htakelen : (((inputs.take index).map Input.encodeBytes).flatten).length
          = ((inputs.take index).map Input.serialized_size).sum :=
        inputs_flatten_length hwftake
      have hget2 : inputs[index]? = some input := by
        rw [← List.get?_eq_getElem?]
        exact hget
      have hmapped : (inputs.map Input.encodeBytes).flatten
          = ((inputs.take index).map Input.encodeBytes).flatten
            ++ (Input.encodeBytes input
              ++ ((inputs.drop (index + 1)).map Input.encodeBytes).flatten) := by
        conv_lhs => rw [hsplit]
        simp
      refine ⟨((inputs.take index).map Input.serialized_size).sum
          + (TRANSACTION_SCRIPT_FIXED_SIZE + padded_len script
            + padded_len script_data),
        (((inputs.drop (index + 1)).map Input.encodeBytes).flatten
          ++ ((outputs.map Output.encodeBytes).flatten
            ++ (witnesses.map Witness.encodeBytes).flatten)), ?_, ?_⟩
      · simp [Transaction.input_offset, Transaction.sub_input_offset,
          Transaction.inputs_offset, Transaction.inputsE, hget, hget2]
      · have henc : Transaction.encodeBytes (.Script gas_price gas_limit maturity
            script script_data inputs outputs witnesses receipts_root)
            = (word64 0 ++ word64 gas_price ++ word64 gas_limit ++ word64 maturity
                ++ word64 script.length ++ word64 script_data.length
                ++ word64 inputs.length ++ word64 outputs.length
                ++ word64 witnesses.length ++ receipts_root
                ++ vecPayload script ++ vecPayload script_data
                ++ ((inputs.take index).map Input.encodeBytes).flatten)
              ++ (Input.encodeBytes input
                ++ (((inputs.drop (index + 1)).map Input.encodeBytes).flatten
                  ++ ((outputs.map Output.encodeBytes).flatten
                    ++ (witnesses.map Witness.encodeBytes).flatten))) := by
          rw [Transaction.encodeBytes, hmapped]
          simp [List.append_assoc]
        rw [henc, List.drop_left']
        · exact decodeInput_enc _ hwfin
        · simp only [List.length_append, word64_length, vecPayload_length, h9,
            htakelen, TRANSACTION_SCRIPT_FIXED_SIZE, padded_len]
          omega
  | Create gas_price gas_limit maturity bytecode_length bytecode_witness_index
      storage_slots inputs outputs witnesses salt =>
      rw [Transaction.wf, decide_eq_true_eq] at h
      obtain ⟨h1, h2, h3, h4, h5, h6, h7, h8, h9, h10, hslot, hin, hout, hwit⟩ := h
      simp only [Transaction.inputsOf] at hget
      have hsplit := list_split_at_get hget
      have hwfin : input.wf = true := hin input (List.get?_mem hget)
      have hwftake : ∀ x ∈ inputs.take index, x.wf = true :=
        fun x hx => hin x (List.mem_of_mem_take hx)
      have htakelen : (((inputs.take index).map Input.encodeBytes).flatten).length
          = ((inputs.take index).map Input.serialized_size).sum :=
        inputs_flatten_length hwftake
      have hslotlen : ((storage_slots.map StorageSlot.encodeBytes).flatten).length
          = SLOT_SIZE * storage_slots.length := slots_flatten_length hslot
      have hget2 : inputs[index]? = some input := by
        rw [← List.get?_eq_getElem?]
        exact hget
      have hmapped : (inputs.map Input.encodeBytes).flatten
          = ((inputs.take index).map Input.encodeBytes).flatten
            ++ (Input.encodeBytes input
              ++ ((inputs.drop (index + 1)).map Input.encodeBytes).flatten) := by
        conv_lhs => rw [hsplit]
        simp
      refine ⟨((inputs.take index).map Input.serialized_size).sum
          + (TRANSACTION_CREATE_FIXED_SIZE + SLOT_SIZE * storage_slots.length),
        (((inputs.drop (index + 1)).map Input.encodeBytes).flatten
          ++ ((outputs.map Output.encodeBytes).flatten
            ++ (witnesses.map Witness.encodeBytes).flatten)), ?_, ?_⟩
      · simp [Transaction.input_offset, Transaction.sub_input_offset,
          Transaction.inputs_offset, Transaction.inputsE, hget, hget2]
      · have henc : Transaction.encodeBytes (.Create gas_price gas_limit maturity
            bytecode_length bytecode_witness_index storage_slots inputs outputs
            witnesses salt)
            = (word64 1 ++ word64 gas_price ++ word64 gas_limit ++ word64 maturity
                ++ word64 bytecode_length ++ u8enc bytecode_witness_index
                ++ word64 storage_slots.length ++ word64 inputs.length
                ++ word64 outputs.length ++ word64 witnesses.length ++ salt
                ++ (storage_slots.map StorageSlot.encodeBytes).flatten
                ++ ((inputs.take index).map Input.encodeBytes).flatten)
              ++ (Input.encodeBytes input
                ++ (((inputs.drop (index + 1)).map Input.encodeBytes).flatten
                  ++ ((outputs.map Output.encodeBytes).flatten
                    ++ (witnesses.map Witness.encodeBytes).flatten))) := by
          rw [Transaction.encodeBytes, hmapped]
          simp [List.append_assoc]
        rw [henc, List.drop_left']
        · exact decodeInput_enc _ hwfin
        · simp only [List.length_append, word64_length, u8enc_length, h10,
            htakelen, hslotlen, TRANSACTION_CREATE_FIXED_SIZE, SLOT_SIZE]
          omega
  | Mint outputs =>
      exact absurd hget (by simp [Transaction.inputsOf])

/-- C5 witness: the sample script transaction's first input decodes at its
computed offset. -/
theorem claim_input_offset_decode_witness :
    ∃ off rest, sampleScriptTx.input_offset 0 = some off
      ∧ Input.decodeBytes (sampleScriptTx.encodeBytes.drop off)
          = .ok (.CoinSigned ⟨List.replicate 32 5, 10⟩ (List.replicate 32 6) 1000
              (List.replicate 32 0) ⟨17, 19⟩ 0 0, rest) :=
  claim_input_offset_decode sampleScriptTx (by decide) 0
    (.CoinSigned ⟨List.replicate 32 5, 10⟩ (List.replicate 32 6) 1000
      (List.replicate 32 0) ⟨17, 19⟩ 0 0) (by decide)

end FuelTx
